import Mathlib

/-!
Verification of the FileVault v3 codec (`filevault.py`).

The Python source is shallowly embedded: byte strings become `List Nat`
(every element intended to be `< 256`), Python integers become `Nat` or
`Int`, and the stateful loops of the source become structural recursions
or folds that perform the same sequence of operations.  Functions of the
standard library that the codec calls (`zlib.crc32`, UTF-8 validation of
`bytes.decode`) are modelled bit-for-bit next to the embedded code.
-/

set_option maxRecDepth 10000

namespace FileVault

/-- Byte values of the magic literal `b'FVLT'`. -/
def MAGIC : List Nat := [70, 86, 76, 84]

/-- Format version written by the encoder. -/
def VERSION : Nat := 3

/-- The 4-entry palette used in `youtube` mode (2 bits per channel). -/
def YT_LEVELS : List Nat := [0, 85, 170, 255]

/-- The 8-entry palette used in `local` mode (3 bits per channel). -/
def LOCAL_LEVELS : List Nat := [0, 36, 73, 109, 146, 182, 219, 255]

/-- Python `abs(v - levels[i])` on ints, as a natural number distance. -/
def absDiff (a b : Nat) : Nat := ((a : Int) - (b : Int)).natAbs

/-- Embedding of `build_lut` (filevault.py lines 59-70): for every byte
value the index of the nearest palette level, scanning indices upward and
keeping the first minimum. -/
def build_lut (levels : List Nat) : List Nat :=
  (List.range 256).map fun v =>
    ((List.range' 1 (levels.length - 1)).foldl
      (fun best i =>
        let d := absDiff v (levels.getD i 0)
        if d < best.2 then (i, d) else best)
      (0, absDiff v (levels.getD 0 0))).1

/-- Embedding of `xor_crypt` (lines 129-134): `out[i] = data[i] ^ key[i % len(key)]`. -/
def xor_crypt (data key : List Nat) : List Nat :=
  (List.range data.length).map fun i => (data.getD i 0) ^^^ (key.getD (i % key.length) 0)

/-- Embedding of `compress_data` (lines 137-141), parameterised by the external
compressor `zlib.compress(-, 9)`: keep the compressed form only when it is
strictly smaller. -/
def compress_data (zcompress : List Nat → List Nat) (data : List Nat) : List Nat × Bool :=
  if (zcompress data).length < data.length then (zcompress data, true) else (data, false)

/-- Embedding of `decompress_data` (lines 144-147), parameterised by the external
decompressor `zlib.decompress`. -/
def decompress_data (zdecompress : List Nat → List Nat) (data : List Nat)
    (is_compressed : Bool) : List Nat :=
  if is_compressed then zdecompress data else data

/-- Big-endian encoding of `v` on `n` bytes (`struct.pack` formats
`>H`, `>Q`, `>I` with `n = 2, 8, 4`). -/
def packBE (n v : Nat) : List Nat := (List.range n).map fun i => v / 256 ^ (n - 1 - i) % 256

/-- Big-endian value of a byte string (`struct.unpack`). -/
def beVal (l : List Nat) : Nat := l.foldl (fun a b => a * 256 + b) 0

/-- One shift-and-conditional-xor round of the reflected CRC-32 polynomial
0xEDB88320; eight of these process one byte.  Models the bit-level
definition of `zlib.crc32`. -/
def crc32_round (c : Nat) : Nat := if c % 2 = 1 then (c / 2) ^^^ 0xEDB88320 else c / 2

/-- CRC-32 step for one byte: xor the byte into the register then run eight
polynomial rounds.  Models `zlib.crc32` byte processing. -/
def crc32_update (c b : Nat) : Nat :=
  crc32_round (crc32_round (crc32_round (crc32_round
    (crc32_round (crc32_round (crc32_round (crc32_round (c ^^^ b))))))))

/-- Model of `zlib.crc32(data) & 0xFFFFFFFF`: fold over the bytes with
initial register 0xFFFFFFFF and final complement. -/
def crc32 (data : List Nat) : Nat := (data.foldl crc32_update 0xFFFFFFFF) ^^^ 0xFFFFFFFF

/-! ### Bit-stream reasoning infrastructure

`natBits w v` is the list of the low `w` bits of `v`, most significant
first: exactly the order in which the packer consumes and the unpacker
emits bits. -/

/-- The low `w` bits of `v`, most significant bit first. -/
def natBits : Nat → Nat → List Bool
  | 0, _ => []
  | w + 1, v => v.testBit w :: natBits w v

/-- Bits of a byte string, each byte most significant bit first. -/
def bytesBits (l : List Nat) : List Bool := l.flatMap (natBits 8)

/-- The first `n` elements of `l`, padded with `false` up to length `n`. -/
def takePad (n : Nat) (l : List Bool) : List Bool :=
  l.take n ++ List.replicate (n - l.length) false

/-- The refill loop of `Encoder._data_to_blocks` (lines 267-270): shift whole
bytes into the bit buffer until it holds at least `bpb` bits or the input is
exhausted. -/
def fillBuf (bpb buf bits : Nat) : List Nat → Nat × Nat × List Nat
  | [] => (buf, bits, [])
  | b :: rs =>
    if bits < bpb then fillBuf bpb (buf <<< 8 ||| b) (bits + 8) rs
    else (buf, bits, b :: rs)

/-- The per-block values extracted by the loop of `Encoder._data_to_blocks`
(lines 266-283): the buffer state evolves exactly as in the source and each
block contributes one `bpb`-bit value (left-padded with zeros when the input
runs dry). -/
def blockVals (bpb : Nat) : Nat → Nat → Nat → List Nat → List Nat
  | 0, _, _, _ => []
  | count + 1, buf, bits, rest =>
    let s := fillBuf bpb buf bits rest
    if bpb ≤ s.2.1 then
      ((s.1 >>> (s.2.1 - bpb)) &&& ((1 <<< bpb) - 1)) ::
        blockVals bpb count s.1 (s.2.1 - bpb) s.2.2
    else
      ((s.1 <<< (bpb - s.2.1)) &&& ((1 <<< bpb) - 1)) ::
        blockVals bpb count s.1 0 s.2.2

namespace Encoder

/-- Embedding of the body of `Encoder._data_to_blocks` (lines 256-284),
generalised over the loop state: each `bpb`-bit value is split into the three
`bpc`-bit channel indices and mapped through the palette. -/
def data_to_blocks_go (bpc : Nat) (levels : List Nat) :
    Nat → Nat → Nat → List Nat → List (Nat × Nat × Nat)
  | 0, _, _, _ => []
  | count + 1, buf, bits, rest =>
    let bpb := bpc * 3
    let mask := (1 <<< bpc) - 1
    let s := fillBuf bpb buf bits rest
    if bpb ≤ s.2.1 then
      let val := (s.1 >>> (s.2.1 - bpb)) &&& ((1 <<< bpb) - 1)
      (levels.getD ((val >>> (bpc * 2)) &&& mask) 0,
        levels.getD ((val >>> bpc) &&& mask) 0,
        levels.getD (val &&& mask) 0) ::
        data_to_blocks_go bpc levels count s.1 (s.2.1 - bpb) s.2.2
    else
      let val := (s.1 <<< (bpb - s.2.1)) &&& ((1 <<< bpb) - 1)
      (levels.getD ((val >>> (bpc * 2)) &&& mask) 0,
        levels.getD ((val >>> bpc) &&& mask) 0,
        levels.getD (val &&& mask) 0) ::
        data_to_blocks_go bpc levels count s.1 0 s.2.2

/-- Embedding of `Encoder._data_to_blocks` (lines 256-284): pack `data` into
`count` blocks of palette colors, starting from an empty bit buffer. -/
def data_to_blocks (bpc : Nat) (levels : List Nat) (data : List Nat) (count : Nat) :
    List (Nat × Nat × Nat) :=
  data_to_blocks_go bpc levels count 0 0 data

end Encoder

/-- Channel triple recombination used by `Decoder._blocks_to_data` (line 574). -/
def triVal (bpc ri gi bi : Nat) : Nat := (ri <<< (bpc * 2)) ||| (gi <<< bpc) ||| bi

/-- Fuelled version of the flush loop of `Decoder._blocks_to_data`
(lines 577-579); the loop consumes at least eight bits per iteration, so
`bits` itself is enough fuel. -/
def emitBytesF : Nat → Nat → Nat → List Nat × Nat
  | 0, _, bits => ([], bits)
  | fuel + 1, buf, bits =>
    if 8 ≤ bits then
      let p := emitBytesF fuel buf (bits - 8)
      (((buf >>> (bits - 8)) &&& 0xFF) :: p.1, p.2)
    else ([], bits)

/-- The inner flush loop of `Decoder._blocks_to_data` (lines 577-579): emit
whole bytes from the top of the bit buffer while at least 8 bits remain,
returning the emitted bytes and the leftover bit count. -/
def emitBytes (buf : Nat) (bits : Nat) : List Nat × Nat := emitBytesF bits buf bits

namespace Decoder

/-- Embedding of the loop of `Decoder._blocks_to_data` (lines 567-581),
generalised over the bit-buffer state. -/
def blocks_to_data_go (bpc : Nat) : List (Nat × Nat × Nat) → Nat → Nat → List Nat
  | [], _, _ => []
  | (ri, gi, bi) :: blocks, buf, bits =>
    let bpb := bpc * 3
    let buf1 := (buf <<< bpb) ||| triVal bpc ri gi bi
    let e := emitBytes buf1 (bits + bpb)
    e.1 ++ blocks_to_data_go bpc blocks buf1 e.2

/-- Embedding of `Decoder._blocks_to_data` (lines 567-581): emit `3 * bpc`
bits per block MSB-first and flush whole bytes; trailing bits that do not
fill a byte are discarded. -/
def blocks_to_data (blocks : List (Nat × Nat × Nat)) (bpc : Nat) : List Nat :=
  blocks_to_data_go bpc blocks 0 0

end Decoder

/-- The color of the calibration grid block `(gx, gy)` (lines 159-166):
grey `levels[(gx+gy) mod L]` on the 2-block border, the rotating triple
`(levels[ci], levels[ci+1], levels[ci+2])` in the interior. -/
def calColor (levels : List Nat) (grid_w grid_h gx gy : Nat) : Nat × Nat × Nat :=
  if gy < 2 ∨ gy ≥ grid_h - 2 ∨ gx < 2 ∨ gx ≥ grid_w - 2 then
    let idx := (gx + gy) % levels.length
    (levels.getD idx 0, levels.getD idx 0, levels.getD idx 0)
  else
    let ci := ((gx - 2) + (gy - 2) * (grid_w - 4)) % levels.length
    (levels.getD (ci % levels.length) 0,
      levels.getD ((ci + 1) % levels.length) 0,
      levels.getD ((ci + 2) % levels.length) 0)

/-- The `bs`-pixel segment `bytes([r, g, b]) * bs` of one calibration block
(line 168). -/
def calSeg (levels : List Nat) (grid_w grid_h bs gx gy : Nat) : List Nat :=
  let c := calColor levels grid_w grid_h gx gy
  (List.replicate bs [c.1, c.2.1, c.2.2]).flatten

/-- One pixel row of the calibration frame (lines 157-172): the block
segments written contiguously, then the untouched zero margin. -/
def calRow (width bs : Nat) (levels : List Nat) (grid_h gy : Nat) : List Nat :=
  (((List.range (width / bs)).map fun gx =>
    calSeg levels (width / bs) grid_h bs gx gy).flatten)
    ++ List.replicate (width * 3 - (width / bs) * bs * 3) 0

/-- Embedding of `generate_calibration_frame` (lines 150-177).  Each grid row
is repeated `bs` times; rows below the last full block row stay zero.  The
slice writes of the source are contiguous, so the bytearray is exactly this
concatenation. -/
def generate_calibration_frame (width height block_size : Nat) (levels : List Nat) : List Nat :=
  let bs := block_size
  let grid_h := height / bs
  let w3 := width * 3
  (((List.range grid_h).map fun gy =>
    (List.replicate bs (calRow width bs levels grid_h gy)).flatten).flatten)
    ++ List.replicate ((height - grid_h * bs) * w3) 0

/-- The sampled grid coordinates of `detect_calibration_shift`
(lines 195-196): `gy` then `gx` over `[2, min(grid-2, 10))`. -/
def calSamples (grid_w grid_h : Nat) : List (Nat × Nat) :=
  (List.range' 2 (min (grid_h - 2) 10 - 2)).flatMap fun gy =>
    (List.range' 2 (min (grid_w - 2) 10 - 2)).map fun gx => (gy, gx)

/-- The expected color triple of an interior calibration block
(lines 197-200). -/
def calExpected (levels : List Nat) (grid_w gy gx : Nat) : Nat × Nat × Nat :=
  let ci := ((gx - 2) + (gy - 2) * (grid_w - 4)) % levels.length
  (levels.getD (ci % levels.length) 0,
    levels.getD ((ci + 1) % levels.length) 0,
    levels.getD ((ci + 2) % levels.length) 0)

/-- The observed center pixel of a block (lines 202-207). -/
def calActual (frame : List Nat) (width bs gy gx : Nat) : Nat × Nat × Nat :=
  let half := bs / 2
  let o := (gy * bs + half) * (width * 3) + (gx * bs + half) * 3
  (frame.getD o 0, frame.getD (o + 1) 0, frame.getD (o + 2) 0)

/-- Embedding of `detect_calibration_shift` (lines 180-229): sample the
center pixel of every interior block with grid coordinates in
`[2, min(grid-2, 10))`, collect signed offsets against the expected pattern,
count channel values whose nearest level disagrees, and return the
floor-averaged offsets and the exact error ratio. -/
def detect_calibration_shift (frame : List Nat) (width height block_size : Nat)
    (levels : List Nat) : Int × Int × Int × ℚ :=
  let bs := block_size
  let lut := build_lut levels
  let grid_w := width / bs
  let grid_h := height / bs
  let samples := calSamples grid_w grid_h
  let offsets_r := samples.map fun p =>
    ((calActual frame width bs p.1 p.2).1 : Int) - ((calExpected levels grid_w p.1 p.2).1 : Int)
  let offsets_g := samples.map fun p =>
    ((calActual frame width bs p.1 p.2).2.1 : Int) -
      ((calExpected levels grid_w p.1 p.2).2.1 : Int)
  let offsets_b := samples.map fun p =>
    ((calActual frame width bs p.1 p.2).2.2 : Int) -
      ((calExpected levels grid_w p.1 p.2).2.2 : Int)
  let errors : Nat := (samples.map fun p =>
    (if lut.getD (calActual frame width bs p.1 p.2).1 0 ≠
        levels.indexOf (calExpected levels grid_w p.1 p.2).1 then 1 else 0) +
    (if lut.getD (calActual frame width bs p.1 p.2).2.1 0 ≠
        levels.indexOf (calExpected levels grid_w p.1 p.2).2.1 then 1 else 0) +
    (if lut.getD (calActual frame width bs p.1 p.2).2.2 0 ≠
        levels.indexOf (calExpected levels grid_w p.1 p.2).2.2 then 1 else 0)).sum
  let total := 3 * samples.length
  if offsets_r.isEmpty then (0, 0, 0, 0)
  else
    (offsets_r.sum.fdiv offsets_r.length,
      offsets_g.sum.fdiv offsets_g.length,
      offsets_b.sum.fdiv offsets_b.length,
      if total > 0 then (errors : ℚ) / (total : ℚ) else 0)

/-- Embedding of `Decoder._frame_to_blocks` (lines 523-565): sample a
symmetric neighbourhood around each block center, average per channel with
integer division, and quantize through the plain LUT or, when present, the
per-channel adjusted LUTs. -/
def frame_to_blocks (frame : List Nat) (width height bs : Nat) (levels : List Nat)
    (adj : Option (List Nat × List Nat × List Nat)) : List (Nat × Nat × Nat) :=
  let lut := build_lut levels
  let grid_w := width / bs
  let grid_h := height / bs
  let w3 := width * 3
  let half := bs / 2
  let sr : List Int := if bs ≥ 6 then [-2, -1, 0, 1, 2] else if bs ≥ 4 then [-1, 0, 1] else [0]
  let sample_count := sr.length * sr.length
  (List.range grid_h).flatMap fun gy =>
    (List.range grid_w).map fun gx =>
      let cy := gy * bs + half
      let cx := gx * bs + half
      let sums := sr.foldl (fun acc dy =>
        sr.foldl (fun acc2 dx =>
          let o := (((cy : Int) + dy) * w3 + ((cx : Int) + dx) * 3).toNat
          (acc2.1 + frame.getD o 0, acc2.2.1 + frame.getD (o + 1) 0,
            acc2.2.2 + frame.getD (o + 2) 0)) acc) ((0, 0, 0) : Nat × Nat × Nat)
      let ra := sums.1 / sample_count
      let ga := sums.2.1 / sample_count
      let ba := sums.2.2 / sample_count
      match adj with
      | some (lut_r, lut_g, lut_b) => (lut_r.getD ra 0, lut_g.getD ga 0, lut_b.getD ba 0)
      | none => (lut.getD ra 0, lut.getD ga 0, lut.getD ba 0)

/-- One vote into the per-channel tally of `Decoder._merge_repeated_frames`
(lines 610-612).  A Python dict keeps keys in insertion order, so the tally
is an association list: a fresh key is appended, an existing key is bumped
in place. -/
def addVote (votes : List (Nat × Nat)) (k : Nat) : List (Nat × Nat) :=
  match votes with
  | [] => [(k, 1)]
  | (k1, c) :: rest => if k1 = k then (k1, c + 1) :: rest else (k1, c) :: addVote rest k

/-- The tally of a list of channel indices, in first-occurrence order. -/
def votesOf (xs : List Nat) : List (Nat × Nat) := xs.foldl addVote []

/-- Python `max(votes, key=votes.get)` (lines 614-616): iterate the keys in
insertion order and keep the first key whose count all later counts fail to
exceed strictly. -/
def maxKey (votes : List (Nat × Nat)) : Nat :=
  match votes with
  | [] => 0
  | kv :: rest => (rest.foldl (fun best x => if x.2 > best.2 then x else best) kv).1

/-- The voting loop of `Decoder._merge_repeated_frames` (lines 603-617):
per block and channel, tally the indices over the repeated frames and pick
the maximum-vote key. -/
def mergeBlockLists (all_blocks : List (List (Nat × Nat × Nat))) (n_blocks : Nat) :
    List (Nat × Nat × Nat) :=
  (List.range n_blocks).map fun bi =>
    (maxKey (votesOf (all_blocks.map fun blk => (blk.getD bi (0, 0, 0)).1)),
      maxKey (votesOf (all_blocks.map fun blk => (blk.getD bi (0, 0, 0)).2.1)),
      maxKey (votesOf (all_blocks.map fun blk => (blk.getD bi (0, 0, 0)).2.2)))

namespace Decoder

/-- Embedding of `Decoder._merge_repeated_frames` (lines 583-619): with
`repeat <= 1` decode the single frame, otherwise decode every repeated frame
and majority-vote per block and channel. -/
def merge_repeated_frames (frames_data : List (List Nat)) (width height bs : Nat)
    (levels : List Nat) (bpc repeatN : Nat)
    (adj : Option (List Nat × List Nat × List Nat)) : List (Nat × Nat × Nat) :=
  if repeatN ≤ 1 then
    frame_to_blocks (frames_data.getD 0 []) width height bs levels adj
  else
    mergeBlockLists (frames_data.map fun fd => frame_to_blocks fd width height bs levels adj)
      ((width / bs) * (height / bs))

end Decoder

/-- Well-formedness of a byte string under the UTF-8 decoder used by Python
`bytes.decode` (RFC 3629 table: no overlong forms, no surrogates, code
points at most 0x10FFFF).  Models the standard-library decoder the parser
calls on the filename field. -/
def utf8Valid : List Nat → Bool
  | [] => true
  | b :: rest =>
    if b < 128 then utf8Valid rest
    else if 194 ≤ b ∧ b ≤ 223 then
      match rest with
      | b2 :: rs => if 128 ≤ b2 ∧ b2 ≤ 191 then utf8Valid rs else false
      | [] => false
    else if b = 224 then
      match rest with
      | b2 :: b3 :: rs =>
        if (160 ≤ b2 ∧ b2 ≤ 191) ∧ (128 ≤ b3 ∧ b3 ≤ 191) then utf8Valid rs else false
      | _ => false
    else if (225 ≤ b ∧ b ≤ 236) ∨ b = 238 ∨ b = 239 then
      match rest with
      | b2 :: b3 :: rs =>
        if (128 ≤ b2 ∧ b2 ≤ 191) ∧ (128 ≤ b3 ∧ b3 ≤ 191) then utf8Valid rs else false
      | _ => false
    else if b = 237 then
      match rest with
      | b2 :: b3 :: rs =>
        if (128 ≤ b2 ∧ b2 ≤ 159) ∧ (128 ≤ b3 ∧ b3 ≤ 191) then utf8Valid rs else false
      | _ => false
    else if b = 240 then
      match rest with
      | b2 :: b3 :: b4 :: rs =>
        if (144 ≤ b2 ∧ b2 ≤ 191) ∧ (128 ≤ b3 ∧ b3 ≤ 191) ∧ (128 ≤ b4 ∧ b4 ≤ 191) then
          utf8Valid rs
        else false
      | _ => false
    else if 241 ≤ b ∧ b ≤ 243 then
      match rest with
      | b2 :: b3 :: b4 :: rs =>
        if (128 ≤ b2 ∧ b2 ≤ 191) ∧ (128 ≤ b3 ∧ b3 ≤ 191) ∧ (128 ≤ b4 ∧ b4 ≤ 191) then
          utf8Valid rs
        else false
      | _ => false
    else if b = 244 then
      match rest with
      | b2 :: b3 :: b4 :: rs =>
        if (128 ≤ b2 ∧ b2 ≤ 143) ∧ (128 ≤ b3 ∧ b3 ≤ 191) ∧ (128 ≤ b4 ∧ b4 ≤ 191) then
          utf8Valid rs
        else false
      | _ => false
    else false

/-- The parsed metadata record (`Decoder._try_decode_meta`, lines 695-710).
The filename is kept as its UTF-8 bytes. -/
structure MetaRec where
  version : Nat
  block_size : Nat
  bpc : Nat
  width : Nat
  height : Nat
  fps : Nat
  repeatCount : Nat
  is_compressed : Bool
  is_encrypted : Bool
  filename : List Nat
  original_size : Nat
  payload_size : Nat
  file_hash : List Nat
  salt : List Nat
deriving DecidableEq

/-- Big-endian field read: `struct.unpack` on `data[p:p+n]` succeeds exactly
when the slice has `n` bytes. -/
def readBE (data : List Nat) (p n : Nat) : Option Nat :=
  if p + n ≤ data.length then some (beVal ((data.drop p).take n)) else none

/-- The byte-level part of `Decoder._try_decode_meta` (lines 634-712): parse
the decoded frame bytes into a metadata record, returning `none` on any
failed read, bad magic, zero name length, invalid UTF-8 filename, CRC
mismatch, or out-of-range original size.  Reads that raise in Python
(`IndexError`, `struct.error`, `UnicodeDecodeError`) are the `none` cases of
`List.get?`, `readBE` and the `utf8Valid` guard; the surrounding
`try/except` turns them into `None`. -/
def parseMeta (data : List Nat) : Option MetaRec := do
  if data.take 4 ≠ MAGIC then none else
  let ver ← data.get? 4
  let mbs ← data.get? 5
  let mbpc ← data.get? 6
  let mw ← readBE data 7 2
  let mh ← readBE data 9 2
  let mfps ← data.get? 11
  let st ←
    if ver ≥ 3 then do
      let rep ← data.get? 12
      let flags ← data.get? 13
      pure (rep, decide (flags &&& 1 ≠ 0), decide (flags &&& 2 ≠ 0), 14)
    else pure (1, false, false, 12)
  let name_len ← data.get? st.2.2.2
  if name_len = 0 ∨ st.2.2.2 + 1 + name_len > data.length then none else
  let fname := (data.drop (st.2.2.2 + 1)).take name_len
  if ¬ utf8Valid fname then none else
  let p1 := st.2.2.2 + 1 + name_len
  let original_size ← readBE data p1 8
  let st2 ←
    if ver ≥ 3 then do
      let ps ← readBE data (p1 + 8) 8
      pure (ps, p1 + 16)
    else pure (original_size, p1 + 8)
  if st2.2 + 32 > data.length then none else
  let fhash := (data.drop st2.2).take 32
  let st3 ←
    if ver ≥ 3 then
      if st2.2 + 32 + 16 > data.length then none
      else pure ((data.drop (st2.2 + 32)).take 16, st2.2 + 48)
    else pure (List.replicate 16 0, st2.2 + 32)
  let stored_crc ← readBE data st3.2 4
  if crc32 (data.take st3.2) ≠ stored_crc then none else
  if original_size = 0 ∨ original_size > 2147483648 then none else
  pure (MetaRec.mk ver mbs mbpc mw mh mfps st.1 st.2.1 st.2.2.1 fname original_size st2.1
    fhash st3.1)

namespace Decoder

/-- Embedding of `Decoder._try_decode_meta` (lines 621-712): reject tiny
grids, decode the frame to bytes, and parse the metadata record. -/
def try_decode_meta (frame : List Nat) (width height bs : Nat) (levels : List Nat)
    (bpc : Nat) (adj : Option (List Nat × List Nat × List Nat)) : Option MetaRec :=
  if width / bs < 4 ∨ height / bs < 4 then none
  else parseMeta (blocks_to_data (frame_to_blocks frame width height bs levels adj) bpc)

end Decoder

/-- The rejection conditions exactly as claim C2 words them: magic mismatch,
a field (filename, sizes, hash, salt, CRC) running past the end of the
buffer, a stored CRC-32 differing from the CRC-32 of all preceding record
bytes, or an original size of zero or above 2 GiB. -/
def metaRejectClaim (data : List Nat) : Bool :=
  let L := data.length
  let ver := data.getD 4 0
  let p0 := if ver ≥ 3 then 14 else 12
  let name_len := data.getD p0 0
  let p1 := p0 + 1 + name_len
  let p2 := if ver ≥ 3 then p1 + 16 else p1 + 8
  let p3 := if ver ≥ 3 then p2 + 48 else p2 + 32
  let osize := beVal ((data.drop p1).take 8)
  decide (data.take 4 ≠ MAGIC) ||
  (decide (p1 > L) || decide (p2 > L) || decide (p3 > L) || decide (p3 + 4 > L)) ||
  decide (crc32 (data.take p3) ≠ beVal ((data.drop p3).take 4)) ||
  (decide (osize = 0) || decide (osize > 2147483648))

/-- The full rejection conditions of the byte-level parser (amended claim
C2): additionally, a buffer too short for the fixed header through the
name-length byte, a zero name length, and a filename that is not valid
UTF-8 are rejected. -/
def metaRejectSpec (data : List Nat) : Bool :=
  let L := data.length
  let ver := data.getD 4 0
  let p0 := if ver ≥ 3 then 14 else 12
  let name_len := data.getD p0 0
  let p1 := p0 + 1 + name_len
  let p2 := if ver ≥ 3 then p1 + 16 else p1 + 8
  let p3 := if ver ≥ 3 then p2 + 48 else p2 + 32
  let osize := beVal ((data.drop p1).take 8)
  decide (data.take 4 ≠ MAGIC) ||
  decide (L < p0 + 1) ||
  decide (name_len = 0) ||
  (decide (p1 > L) || decide (p2 > L) || decide (p3 > L) || decide (p3 + 4 > L)) ||
  !(utf8Valid ((data.drop (p0 + 1)).take name_len)) ||
  decide (crc32 (data.take p3) ≠ beVal ((data.drop p3).take 4)) ||
  (decide (osize = 0) || decide (osize > 2147483648))

/-- A 16x7-block frame (block size 1, 2 bits per channel) whose decoded
bytes form a CRC-valid version-3 record with a zero name-length byte. -/
def c2Frame : List Nat := [85, 0, 85, 170, 85, 85, 85, 170, 85, 0, 255, 0, 85, 85, 85, 0, 0, 0, 0, 255, 0, 0, 170, 0, 0, 0, 0, 170, 0, 0, 0, 170, 170, 0, 0, 0, 0, 0, 0, 85, 255, 170, 0, 0, 0, 0, 170, 170, 0, 0, 0, 85, 0, 0, 0, 0, 0, 0, 0, 0, 0, 0, 0, 0, 0, 0, 0, 0, 0, 0, 0, 0, 0, 0, 0, 0, 0, 0, 0, 0, 0, 0, 0, 0, 0, 0, 0, 0, 0, 0, 0, 85, 0, 0, 0, 0, 0, 0, 0, 0, 0, 0, 0, 0, 0, 0, 0, 0, 0, 0, 0, 0, 0, 0, 0, 0, 0, 0, 0, 0, 0, 0, 0, 85, 0, 0, 0, 0, 0, 0, 0, 0, 0, 0, 0, 0, 0, 0, 0, 0, 0, 0, 0, 0, 0, 0, 0, 0, 0, 0, 0, 0, 0, 0, 0, 0, 0, 0, 0, 0, 0, 0, 0, 0, 0, 0, 0, 0, 0, 0, 0, 0, 0, 0, 0, 0, 0, 0, 0, 0, 0, 0, 0, 0, 0, 0, 0, 0, 0, 0, 0, 0, 0, 0, 0, 0, 0, 0, 0, 0, 0, 0, 0, 0, 0, 0, 0, 0, 0, 0, 0, 0, 0, 0, 0, 0, 0, 0, 0, 0, 0, 0, 0, 0, 0, 0, 0, 0, 0, 0, 0, 0, 0, 0, 0, 0, 0, 0, 0, 0, 0, 0, 0, 0, 0, 0, 0, 0, 0, 0, 0, 0, 0, 0, 0, 0, 0, 0, 0, 0, 0, 0, 0, 0, 0, 0, 0, 0, 0, 0, 0, 0, 0, 0, 0, 0, 0, 0, 0, 0, 0, 0, 0, 0, 0, 0, 0, 0, 0, 0, 0, 0, 0, 0, 0, 0, 0, 0, 0, 0, 0, 0, 0, 0, 0, 0, 0, 0, 0, 0, 0, 0, 0, 0, 0, 0, 255, 85, 255, 85, 255, 255, 255, 255, 255, 0, 0, 0, 0, 255, 0, 170, 0, 0, 0, 0]

/-- The decoded bytes of `c2Frame`. -/
def c2Data : List Nat := [70, 86, 76, 84, 3, 8, 2, 2, 128, 1, 224, 10, 1, 0, 0, 0, 0, 0, 0, 0, 0, 0, 1, 0, 0, 0, 0, 0, 0, 0, 1, 0, 0, 0, 0, 0, 0, 0, 0, 0, 0, 0, 0, 0, 0, 0, 0, 0, 0, 0, 0, 0, 0, 0, 0, 0, 0, 0, 0, 0, 0, 0, 0, 0, 0, 0, 0, 0, 0, 0, 0, 0, 0, 0, 0, 0, 0, 0, 0, 221, 255, 192, 50, 0]

/-- An 80-byte ASCII filename crafted so that lowering the stored name
length to 1 re-aligns the record fields inside the filename with a matching
CRC. -/
def c6Filename : List Nat := [97, 0, 0, 0, 0, 0, 0, 0, 1, 74, 0, 0, 0, 0, 0, 0, 0, 0, 0, 0, 0, 0, 0, 0, 0, 0, 0, 0, 0, 0, 0, 0, 0, 0, 0, 0, 0, 0, 0, 0, 0, 0, 0, 0, 0, 0, 0, 0, 0, 0, 0, 0, 0, 0, 0, 0, 0, 0, 0, 0, 0, 0, 0, 0, 0, 72, 116, 35, 79, 97, 97, 97, 97, 97, 97, 97, 97, 97, 97, 97]

namespace Encoder

/-- The metadata record assembled by `Encoder._build_meta` (lines 304-334)
before the CRC is appended: magic, version, geometry, flags, the
length-prefixed filename (truncated to 255 bytes), sizes, hash and salt
(zero-filled when not encrypted). -/
def build_meta_base (block_size bpc width height fps repeatN : Nat)
    (filename : List Nat) (original_size payload_size : Nat) (file_hash : List Nat)
    (is_compressed is_encrypted : Bool) (salt : List Nat) : List Nat :=
  let flags := (if is_compressed then 1 else 0) + (if is_encrypted then 2 else 0)
  let name_b := filename.take 255
  MAGIC ++ [VERSION, block_size, bpc] ++ packBE 2 width ++ packBE 2 height
    ++ [fps, repeatN, flags, name_b.length] ++ name_b
    ++ packBE 8 original_size ++ packBE 8 payload_size ++ file_hash
    ++ (if is_encrypted ∧ salt ≠ [] then salt else List.replicate 16 0)

/-- The full record of `Encoder._build_meta` (lines 304-337): the base record
followed by the big-endian CRC-32 of the base record. -/
def build_meta_core (block_size bpc width height fps repeatN : Nat)
    (filename : List Nat) (original_size payload_size : Nat) (file_hash : List Nat)
    (is_compressed is_encrypted : Bool) (salt : List Nat) : List Nat :=
  let m := build_meta_base block_size bpc width height fps repeatN filename
    original_size payload_size file_hash is_compressed is_encrypted salt
  m ++ packBE 4 (crc32 m)

/-- Embedding of `Encoder._build_meta` (lines 304-342): the record, padded
with zero bytes up to `bytes_per_frame` when shorter, then cut to exactly
`bytes_per_frame` bytes. -/
def build_meta (bytes_per_frame : Nat) (block_size bpc width height fps repeatN : Nat)
    (filename : List Nat) (original_size payload_size : Nat) (file_hash : List Nat)
    (is_compressed is_encrypted : Bool) (salt : List Nat) : List Nat :=
  let m := build_meta_core block_size bpc width height fps repeatN filename
    original_size payload_size file_hash is_compressed is_encrypted salt
  (if m.length < bytes_per_frame then m ++ List.replicate (bytes_per_frame - m.length) 0
   else m).take bytes_per_frame

end Encoder

/-! ### Bit-list lemmas -/

@[simp] theorem length_natBits (w v : Nat) : (natBits w v).length = w := by
  induction w generalizing v with
  | zero => rfl
  | succ w ih => simp [natBits, ih]

theorem natBits_congr {w x y : Nat} (h : ∀ i, i < w → x.testBit i = y.testBit i) :
    natBits w x = natBits w y := by
  induction w with
  | zero => rfl
  | succ w ih =>
    simp only [natBits]
    exact congrArg₂ _ (h w (Nat.lt_succ_self w)) (ih fun i hi => h i (Nat.lt_succ_of_lt hi))

theorem natBits_zero (w : Nat) : natBits w 0 = List.replicate w false := by
  induction w with
  | zero => rfl
  | succ w ih => simp [natBits, Nat.zero_testBit, ih, List.replicate_succ]

theorem natBits_add (a b v : Nat) :
    natBits (a + b) v = natBits a (v >>> b) ++ natBits b v := by
  induction a with
  | zero => simp [natBits]
  | succ a ih =>
    have h1 : a + 1 + b = (a + b) + 1 := by omega
    rw [h1]
    show v.testBit (a + b) :: natBits (a + b) v = natBits (a + 1) (v >>> b) ++ natBits b v
    rw [ih]
    show v.testBit (a + b) :: (natBits a (v >>> b) ++ natBits b v) =
      ((v >>> b).testBit a :: natBits a (v >>> b)) ++ natBits b v
    rw [Nat.testBit_shiftRight, Nat.add_comm b a]
    rfl

theorem natBits_mod (w v : Nat) : natBits w (v % 2 ^ w) = natBits w v :=
  natBits_congr fun i hi => by simp [Nat.testBit_mod_two_pow, hi]

theorem natBits_and_mask (w v : Nat) : natBits w (v &&& (2 ^ w - 1)) = natBits w v :=
  natBits_congr fun i hi => by
    simp [Nat.testBit_and, Nat.testBit_two_pow_sub_one, hi]

theorem testBit_eq_of_natBits_eq {w x y : Nat} (h : natBits w x = natBits w y) :
    ∀ i, i < w → x.testBit i = y.testBit i := by
  induction w with
  | zero => omega
  | succ w ih =>
    intro i hi
    simp only [natBits, List.cons.injEq] at h
    rcases Nat.lt_succ_iff_lt_or_eq.mp hi with hlt | heq
    · exact ih h.2 i hlt
    · rw [heq]; exact h.1

theorem natBits_inj {w x y : Nat} (hx : x < 2 ^ w) (hy : y < 2 ^ w)
    (h : natBits w x = natBits w y) : x = y := by
  apply Nat.eq_of_testBit_eq
  intro i
  by_cases hi : i < w
  · exact testBit_eq_of_natBits_eq h i hi
  · have hxw : x < 2 ^ i := lt_of_lt_of_le hx (Nat.pow_le_pow_right (by omega) (by omega))
    have hyw : y < 2 ^ i := lt_of_lt_of_le hy (Nat.pow_le_pow_right (by omega) (by omega))
    rw [Nat.testBit_lt_two_pow hxw, Nat.testBit_lt_two_pow hyw]

theorem shiftLeft_lor_shiftRight (x b k : Nat) (hb : b < 2 ^ k) :
    (x <<< k ||| b) >>> k = x := by
  apply Nat.eq_of_testBit_eq
  intro i
  rw [Nat.testBit_shiftRight, Nat.testBit_lor, Nat.testBit_shiftLeft]
  have hbf : b.testBit (k + i) = false :=
    Nat.testBit_lt_two_pow (lt_of_lt_of_le hb (Nat.pow_le_pow_right (by omega) (by omega)))
  simp [hbf, Nat.add_sub_cancel_left, Nat.le_add_right]

theorem natBits_lor_low (k x b : Nat) : natBits k (x <<< k ||| b) = natBits k b :=
  natBits_congr fun i hi => by
    rw [Nat.testBit_lor, Nat.testBit_shiftLeft]
    have : ¬ (i ≥ k) := by omega
    simp [this]

/-- Appending `k` fresh low bits: shifting `x` up and or-ing a `k`-bit value
`b` concatenates the two bit lists. -/
theorem natBits_shiftLeft_lor (a k x b : Nat) (hb : b < 2 ^ k) :
    natBits (a + k) (x <<< k ||| b) = natBits a x ++ natBits k b := by
  rw [natBits_add, shiftLeft_lor_shiftRight x b k hb, natBits_lor_low]

theorem natBits_shiftLeft_pad (a k x : Nat) :
    natBits (a + k) (x <<< k) = natBits a x ++ List.replicate k false := by
  have h := natBits_shiftLeft_lor a k x 0 (Nat.pos_pow_of_pos k (by omega))
  simpa [natBits_zero] using h

theorem takePad_nil (n : Nat) : takePad n [] = List.replicate n false := by
  simp [takePad]

@[simp] theorem takePad_zero (l : List Bool) : takePad 0 l = [] := by
  simp [takePad]

theorem takePad_of_le {n : Nat} {l : List Bool} (h : n ≤ l.length) :
    takePad n l = l.take n := by
  simp [takePad, Nat.sub_eq_zero_of_le h]

theorem takePad_step_le {k n : Nat} {l : List Bool} (h : k ≤ l.length) :
    takePad (k + n) l = l.take k ++ takePad n (l.drop k) := by
  simp only [takePad, List.take_add, List.length_drop, List.append_assoc]
  congr 2
  congr 1
  omega

theorem takePad_step_ge {k n : Nat} {l : List Bool} (h : l.length ≤ k) :
    takePad (k + n) l =
      (l ++ List.replicate (k - l.length) false) ++ List.replicate n false := by
  simp only [takePad, List.take_of_length_le (le_trans h (Nat.le_add_right k n)),
    List.append_assoc]
  rw [← List.replicate_add]
  congr 2
  omega

/-! ### Bit-packer stream lemmas (claim C1) -/

theorem one_shiftLeft_sub_one (w : Nat) : (1 <<< w) - 1 = 2 ^ w - 1 := by
  rw [Nat.shiftLeft_eq, Nat.one_mul]

theorem takePad_of_ge {n : Nat} {l : List Bool} (h : l.length ≤ n) :
    takePad n l = l ++ List.replicate (n - l.length) false := by
  rw [takePad, List.take_of_length_le h]

theorem fillBuf_spec (bpb : Nat) :
    ∀ (rest : List Nat) (buf bits : Nat), (∀ b ∈ rest, b < 256) →
      natBits (fillBuf bpb buf bits rest).2.1 (fillBuf bpb buf bits rest).1 ++
          bytesBits (fillBuf bpb buf bits rest).2.2 =
        natBits bits buf ++ bytesBits rest ∧
      (bpb ≤ (fillBuf bpb buf bits rest).2.1 ∨ (fillBuf bpb buf bits rest).2.2 = []) ∧
      (∀ b ∈ (fillBuf bpb buf bits rest).2.2, b < 256) := by
  intro rest
  induction rest with
  | nil =>
    intro buf bits _
    exact ⟨rfl, Or.inr rfl, fun b hb => by simp [fillBuf] at hb⟩
  | cons b rs ih =>
    intro buf bits hb
    by_cases hlt : bits < bpb
    · have hb256 : b < 256 := hb b (by simp)
      have hrs : ∀ x ∈ rs, x < 256 := fun x hx => hb x (by simp [hx])
      have heq : fillBuf bpb buf bits (b :: rs) = fillBuf bpb (buf <<< 8 ||| b) (bits + 8) rs := by
        simp [fillBuf, hlt]
      rw [heq]
      obtain ⟨h1, h2, h3⟩ := ih (buf <<< 8 ||| b) (bits + 8) hrs
      refine ⟨?_, h2, h3⟩
      rw [h1, natBits_shiftLeft_lor bits 8 buf b hb256]
      simp [bytesBits]
    · have heq : fillBuf bpb buf bits (b :: rs) = (buf, bits, b :: rs) := by
        simp [fillBuf, hlt]
      rw [heq]
      exact ⟨rfl, Or.inl (Nat.le_of_not_lt hlt), hb⟩

theorem blockVals_bits (bpb : Nat) :
    ∀ (count buf bits : Nat) (rest : List Nat), (∀ b ∈ rest, b < 256) →
      (blockVals bpb count buf bits rest).flatMap (natBits bpb) =
        takePad (count * bpb) (natBits bits buf ++ bytesBits rest) := by
  intro count
  induction count with
  | zero => intro buf bits rest _; simp [blockVals]
  | succ count ih =>
    intro buf bits rest hb
    obtain ⟨hS, hdis, hb2⟩ := fillBuf_spec bpb rest buf bits hb
    set s := fillBuf bpb buf bits rest with hs
    rw [← hS]
    by_cases hge : bpb ≤ s.2.1
    · have hval : natBits bpb ((s.1 >>> (s.2.1 - bpb)) &&& ((1 <<< bpb) - 1)) =
          natBits bpb (s.1 >>> (s.2.1 - bpb)) := by
        rw [one_shiftLeft_sub_one, natBits_and_mask]
      have hsplit : natBits s.2.1 s.1 =
          natBits bpb (s.1 >>> (s.2.1 - bpb)) ++ natBits (s.2.1 - bpb) s.1 := by
        generalize hr : s.2.1 - bpb = r
        have h1 : s.2.1 = bpb + r := by omega
        rw [h1]
        exact natBits_add bpb r s.1
      have hstep : blockVals bpb (count + 1) buf bits rest =
          ((s.1 >>> (s.2.1 - bpb)) &&& ((1 <<< bpb) - 1)) ::
            blockVals bpb count s.1 (s.2.1 - bpb) s.2.2 := by
        rw [blockVals, ← hs, if_pos hge]
      rw [hstep, List.flatMap_cons, hval, ih s.1 (s.2.1 - bpb) s.2.2 hb2]
      have hlen : (count + 1) * bpb = bpb + count * bpb := by ring
      rw [hlen, hsplit, List.append_assoc,
        takePad_step_le (l := natBits bpb (s.1 >>> (s.2.1 - bpb)) ++
          (natBits (s.2.1 - bpb) s.1 ++ bytesBits s.2.2)) (by simp),
        List.take_append_of_le_length (by simp), List.take_of_length_le (by simp),
        List.drop_append_of_le_length (by simp), List.drop_of_length_le (by simp)]
      simp
    · have hnil : s.2.2 = [] := by
        rcases hdis with h | h
        · omega
        · exact h
      have hlow : s.2.1 ≤ bpb := by omega
      have hval : natBits bpb ((s.1 <<< (bpb - s.2.1)) &&& ((1 <<< bpb) - 1)) =
          natBits s.2.1 s.1 ++ List.replicate (bpb - s.2.1) false := by
        rw [one_shiftLeft_sub_one, natBits_and_mask]
        have h1 : bpb = s.2.1 + (bpb - s.2.1) := by omega
        rw [h1]
        rw [Nat.add_sub_cancel_left]
        exact natBits_shiftLeft_pad s.2.1 (bpb - s.2.1) s.1
      have hstep : blockVals bpb (count + 1) buf bits rest =
          ((s.1 <<< (bpb - s.2.1)) &&& ((1 <<< bpb) - 1)) ::
            blockVals bpb count s.1 0 s.2.2 := by
        rw [blockVals, ← hs, if_neg (by omega)]
      rw [hstep, List.flatMap_cons, hval, hnil, ih s.1 0 [] (by simp)]
      have htail : takePad (count * bpb) (natBits 0 s.1 ++ bytesBits []) =
          List.replicate (count * bpb) false := by
        simp [natBits, bytesBits, takePad_nil]
      rw [htail]
      have hlen : (count + 1) * bpb = bpb + count * bpb := by ring
      rw [hlen]
      rw [takePad_step_ge (l := natBits s.2.1 s.1 ++ bytesBits []) (by simp [bytesBits]; omega)]
      simp [bytesBits]

theorem blockVals_lt (bpb : Nat) :
    ∀ (count buf bits : Nat) (rest : List Nat) (v : Nat),
      v ∈ blockVals bpb count buf bits rest → v < 2 ^ bpb := by
  intro count
  induction count with
  | zero => intro _ _ _ v h; simp [blockVals] at h
  | succ count ih =>
    intro buf bits rest v hv
    have hm : (1 <<< bpb) - 1 < 2 ^ bpb := by
      rw [one_shiftLeft_sub_one]
      exact Nat.sub_lt (Nat.pos_pow_of_pos bpb (by omega)) (by omega)
    rw [blockVals] at hv
    split at hv <;>
      (rcases List.mem_cons.mp hv with h | h
       · rw [h]; exact Nat.and_lt_two_pow _ hm
       · exact ih _ _ _ _ h)

theorem emitBytesF_spec :
    ∀ (fuel bits buf : Nat), bits ≤ fuel →
      (emitBytesF fuel buf bits).1.flatMap (natBits 8) ++
          natBits (emitBytesF fuel buf bits).2 buf = natBits bits buf ∧
      (emitBytesF fuel buf bits).2 < 8 ∧ (∀ x ∈ (emitBytesF fuel buf bits).1, x < 256) := by
  intro fuel
  induction fuel with
  | zero =>
    intro bits buf hle
    have hb : bits = 0 := by omega
    subst hb
    exact ⟨rfl, by show (0 : Nat) < 8; omega, fun x hx => by simp [emitBytesF] at hx⟩
  | succ fuel ih =>
    intro bits buf hle
    by_cases h8 : 8 ≤ bits
    · have heq : emitBytesF (fuel + 1) buf bits =
          (((buf >>> (bits - 8)) &&& 0xFF) :: (emitBytesF fuel buf (bits - 8)).1,
            (emitBytesF fuel buf (bits - 8)).2) := by
        rw [emitBytesF, if_pos h8]
      obtain ⟨h1, h2, h3⟩ := ih (bits - 8) buf (by omega)
      rw [heq]
      refine ⟨?_, h2, ?_⟩
      · rw [List.flatMap_cons, List.append_assoc, h1]
        have hsplit : natBits bits buf =
            natBits 8 (buf >>> (bits - 8)) ++ natBits (bits - 8) buf := by
          have h1 : bits = 8 + (bits - 8) := by omega
          rw [h1, natBits_add, Nat.add_sub_cancel_left]
        rw [hsplit]
        congr 1
        show natBits 8 ((buf >>> (bits - 8)) &&& 0xFF) = natBits 8 (buf >>> (bits - 8))
        exact natBits_and_mask 8 _
      · intro x hx
        rcases List.mem_cons.mp hx with h | h
        · rw [h]
          have : (buf >>> (bits - 8)) &&& 0xFF ≤ 0xFF := Nat.and_le_right
          omega
        · exact h3 x h
    · have heq : emitBytesF (fuel + 1) buf bits = ([], bits) := by
        rw [emitBytesF, if_neg h8]
      rw [heq]
      exact ⟨by simp, by omega, by simp⟩

theorem emitBytes_spec :
    ∀ (bits buf : Nat),
      (emitBytes buf bits).1.flatMap (natBits 8) ++ natBits (emitBytes buf bits).2 buf =
        natBits bits buf ∧
      (emitBytes buf bits).2 < 8 ∧ (∀ x ∈ (emitBytes buf bits).1, x < 256) :=
  fun bits buf => emitBytesF_spec bits bits buf le_rfl

theorem blocks_to_data_go_spec (bpc : Nat) :
    ∀ (blocks : List (Nat × Nat × Nat)) (buf bits : Nat), bits < 8 →
      (∀ t ∈ blocks, triVal bpc t.1 t.2.1 t.2.2 < 2 ^ (bpc * 3)) →
      ∃ lf : List Bool,
        (Decoder.blocks_to_data_go bpc blocks buf bits).flatMap (natBits 8) ++ lf =
          natBits bits buf ++
            blocks.flatMap (fun t => natBits (bpc * 3) (triVal bpc t.1 t.2.1 t.2.2)) ∧
        lf.length < 8 ∧ (∀ x ∈ Decoder.blocks_to_data_go bpc blocks buf bits, x < 256) := by
  intro blocks
  induction blocks with
  | nil =>
    intro buf bits hb _
    refine ⟨natBits bits buf, ?_, ?_, ?_⟩
    · simp [Decoder.blocks_to_data_go]
    · simpa using hb
    · intro x hx; simp [Decoder.blocks_to_data_go] at hx
  | cons t blocks ih =>
    obtain ⟨ri, gi, bi⟩ := t
    intro buf bits hb ht
    have hval : triVal bpc ri gi bi < 2 ^ (bpc * 3) := ht (ri, gi, bi) (List.mem_cons_self _ _)
    set buf1 := (buf <<< (bpc * 3)) ||| triVal bpc ri gi bi with hbuf1
    obtain ⟨e1, e2, e3⟩ := emitBytes_spec (bits + bpc * 3) buf1
    obtain ⟨lf, g1, g2, g3⟩ := ih buf1 (emitBytes buf1 (bits + bpc * 3)).2 e2
      (fun t htm => ht t (by simp [htm]))
    refine ⟨lf, ?_, g2, ?_⟩
    · have hstep : Decoder.blocks_to_data_go bpc ((ri, gi, bi) :: blocks) buf bits =
          (emitBytes buf1 (bits + bpc * 3)).1 ++
            Decoder.blocks_to_data_go bpc blocks buf1 (emitBytes buf1 (bits + bpc * 3)).2 := by
        rw [Decoder.blocks_to_data_go]
      rw [hstep, List.flatMap_append, List.append_assoc, g1, ← List.append_assoc, e1]
      have hcat : natBits (bits + bpc * 3) buf1 =
          natBits bits buf ++ natBits (bpc * 3) (triVal bpc ri gi bi) :=
        natBits_shiftLeft_lor bits (bpc * 3) buf (triVal bpc ri gi bi) hval
      rw [hcat, List.flatMap_cons, List.append_assoc]
    · intro x hx
      rw [Decoder.blocks_to_data_go] at hx
      rcases List.mem_append.mp hx with h | h
      · exact e3 x h
      · exact g3 x h

/-- Splitting a `3·bpc`-bit value into its three masked channel fields and
recombining them with `triVal` is the identity. -/
theorem triVal_recomb (bpc val : Nat) (hv : val < 2 ^ (bpc * 3)) :
    triVal bpc ((val >>> (bpc * 2)) &&& ((1 <<< bpc) - 1))
      ((val >>> bpc) &&& ((1 <<< bpc) - 1)) (val &&& ((1 <<< bpc) - 1)) = val := by
  rw [one_shiftLeft_sub_one]
  apply Nat.eq_of_testBit_eq
  intro i
  simp only [triVal, Nat.testBit_lor, Nat.testBit_shiftLeft, Nat.testBit_and,
    Nat.testBit_shiftRight, Nat.testBit_two_pow_sub_one]
  by_cases h1 : i < bpc
  · have h2 : ¬ (i ≥ bpc * 2) := by omega
    have h3 : ¬ (i ≥ bpc) := by omega
    simp [h1, h2, h3]
  · by_cases h2 : i < bpc * 2
    · have h3 : i ≥ bpc := by omega
      have h4 : ¬ (i ≥ bpc * 2) := by omega
      have h5 : i - bpc < bpc := by omega
      have h6 : ¬ (i < bpc) := by omega
      have h7 : bpc + (i - bpc) = i := by omega
      simp [h3, h4, h5, h6, h7]
    · by_cases h3 : i < bpc * 3
      · have h4 : i ≥ bpc * 2 := by omega
        have h5 : i - bpc * 2 < bpc := by omega
        have h6 : i ≥ bpc := by omega
        have h7 : ¬ (i - bpc < bpc) := by omega
        have h8 : ¬ (i < bpc) := by omega
        have h9 : bpc * 2 + (i - bpc * 2) = i := by omega
        simp [h4, h5, h6, h7, h8, h9]
      · have hvf : val.testBit i = false :=
          Nat.testBit_lt_two_pow
            (lt_of_lt_of_le hv (Nat.pow_le_pow_right (by omega) (by omega)))
        have h4 : ¬ (i - bpc * 2 < bpc) := by omega
        have h5 : ¬ (i - bpc < bpc) := by omega
        have h6 : ¬ (i < bpc) := by omega
        simp [h4, h5, h6, hvf]

theorem data_to_blocks_go_eq (bpc : Nat) (levels : List Nat) :
    ∀ (count buf bits : Nat) (rest : List Nat),
      Encoder.data_to_blocks_go bpc levels count buf bits rest =
        (blockVals (bpc * 3) count buf bits rest).map fun val =>
          (levels.getD ((val >>> (bpc * 2)) &&& ((1 <<< bpc) - 1)) 0,
            levels.getD ((val >>> bpc) &&& ((1 <<< bpc) - 1)) 0,
            levels.getD (val &&& ((1 <<< bpc) - 1)) 0) := by
  intro count
  induction count with
  | zero => intro buf bits rest; rfl
  | succ count ih =>
    intro buf bits rest
    rw [Encoder.data_to_blocks_go, blockVals]
    split
    · rw [List.map_cons, ih]
    · rw [List.map_cons, ih]

/-- For the palette matching the bit depth, mapping a valid index into the
palette and back with `List.indexOf` is the identity. -/
theorem indexOf_getD_palette (bpc : Nat) (levels : List Nat)
    (hmode : (bpc = 2 ∧ levels = YT_LEVELS) ∨ (bpc = 3 ∧ levels = LOCAL_LEVELS)) :
    ∀ j < 2 ^ bpc, levels.indexOf (levels.getD j 0) = j := by
  rcases hmode with ⟨hb, hl⟩ | ⟨hb, hl⟩ <;> subst hb <;> subst hl <;> decide

theorem flatMap_const_length {α β : Type} (f : α → List β) (k : Nat) :
    ∀ l : List α, (∀ a ∈ l, (f a).length = k) → (l.flatMap f).length = l.length * k := by
  intro l
  induction l with
  | nil => intro _; simp
  | cons a l ih =>
    intro h
    rw [List.flatMap_cons, List.length_append, h a (List.mem_cons_self _ _),
      ih fun x hx => h x (List.mem_cons_of_mem _ hx), List.length_cons, Nat.succ_mul]
    omega

theorem flatMap_take_bytes (L : Nat) :
    ∀ (as : List Nat), (as.take L).flatMap (natBits 8) = (as.flatMap (natBits 8)).take (8 * L) := by
  induction L with
  | zero => intro as; simp
  | succ L ih =>
    intro as
    cases as with
    | nil => simp
    | cons a as =>
      rw [List.take_succ_cons, List.flatMap_cons, List.flatMap_cons]
      have h8 : 8 * (L + 1) = (natBits 8 a).length + 8 * L := by simp; ring
      rw [h8, List.take_append, ih]

theorem flatMap_bytes_inj :
    ∀ (as bs : List Nat), (∀ a ∈ as, a < 256) → (∀ b ∈ bs, b < 256) →
      as.length = bs.length → as.flatMap (natBits 8) = bs.flatMap (natBits 8) → as = bs := by
  intro as
  induction as with
  | nil =>
    intro bs _ _ hlen _
    cases bs with
    | nil => rfl
    | cons b bs => simp at hlen
  | cons a as ih =>
    intro bs ha hb hlen hfm
    cases bs with
    | nil => simp at hlen
    | cons b bs =>
      rw [List.flatMap_cons, List.flatMap_cons] at hfm
      have hlen8 : (natBits 8 a).length = (natBits 8 b).length := by simp
      obtain ⟨h1, h2⟩ := List.append_inj hfm hlen8
      have hab : a = b :=
        natBits_inj (ha a (List.mem_cons_self _ _)) (hb b (List.mem_cons_self _ _)) h1
      rw [hab, ih bs (fun x hx => ha x (List.mem_cons_of_mem _ hx))
        (fun x hx => hb x (List.mem_cons_of_mem _ hx)) (by simpa using hlen) h2]

/-- C1: bit-packer round trip.  For every byte string `d`, matching mode
`(bpc, levels)`, and every `block_count` at least `⌈8·|d| / (3·bpc)⌉`,
unpacking (`Decoder._blocks_to_data`) the blocks produced by
`Encoder._data_to_blocks` composed with the level-to-index mapping yields a
byte string whose first `|d|` bytes are `d`. -/
theorem C1_bitpacker_roundtrip (d : List Nat) (bpc : Nat) (levels : List Nat) (count : Nat)
    (hbytes : ∀ b ∈ d, b < 256)
    (hmode : (bpc = 2 ∧ levels = YT_LEVELS) ∨ (bpc = 3 ∧ levels = LOCAL_LEVELS))
    (hcount : (8 * d.length + 3 * bpc - 1) / (3 * bpc) ≤ count) :
    (Decoder.blocks_to_data
        ((Encoder.data_to_blocks bpc levels d count).map fun t =>
          (levels.indexOf t.1, levels.indexOf t.2.1, levels.indexOf t.2.2))
        bpc).take d.length = d := by
  have hbpc : 0 < bpc := by rcases hmode with ⟨h, _⟩ | ⟨h, _⟩ <;> omega
  set bpb := bpc * 3 with hbpb
  set L := d.length with hL
  -- the ceiling hypothesis gives enough bits
  have h8L : 8 * L ≤ count * bpb := by
    rcases hmode with ⟨hb, _⟩ | ⟨hb, _⟩ <;> subst hb <;> omega
  have hlenbb : (bytesBits d).length = 8 * L := by
    rw [bytesBits, flatMap_const_length (natBits 8) 8 d (fun a _ => by simp), hL]
    omega
  -- the packed values
  set vals := blockVals bpb count 0 0 d with hvals
  have hvbits : vals.flatMap (natBits bpb) = bytesBits d ++
      List.replicate (count * bpb - 8 * L) false := by
    rw [hvals, blockVals_bits bpb count 0 0 d hbytes]
    have h0 : natBits 0 0 ++ bytesBits d = bytesBits d := rfl
    rw [h0, takePad_of_ge (by omega), hlenbb]
  have hvlt : ∀ v ∈ vals, v < 2 ^ bpb := fun v hv => blockVals_lt bpb count 0 0 d v hv
  -- the index blocks seen by the decoder
  have hidx : (Encoder.data_to_blocks bpc levels d count).map (fun t =>
        (levels.indexOf t.1, levels.indexOf t.2.1, levels.indexOf t.2.2)) =
      vals.map fun val =>
        ((val >>> (bpc * 2)) &&& ((1 <<< bpc) - 1),
          (val >>> bpc) &&& ((1 <<< bpc) - 1),
          val &&& ((1 <<< bpc) - 1)) := by
    rw [Encoder.data_to_blocks, data_to_blocks_go_eq, ← hbpb, ← hvals, List.map_map]
    apply List.map_congr_left
    intro val hval
    have hmask : (1 <<< bpc) - 1 < 2 ^ bpc := by
      rw [one_shiftLeft_sub_one]
      exact Nat.sub_lt (Nat.pos_pow_of_pos bpc (by omega)) (by omega)
    simp only [Function.comp_apply]
    rw [indexOf_getD_palette bpc levels hmode _ (Nat.and_lt_two_pow _ hmask),
      indexOf_getD_palette bpc levels hmode _ (Nat.and_lt_two_pow _ hmask),
      indexOf_getD_palette bpc levels hmode _ (Nat.and_lt_two_pow _ hmask)]
  -- the decoder sees bit-identical values
  have htri : ∀ t ∈ (vals.map fun val =>
        ((val >>> (bpc * 2)) &&& ((1 <<< bpc) - 1),
          (val >>> bpc) &&& ((1 <<< bpc) - 1),
          val &&& ((1 <<< bpc) - 1))), triVal bpc t.1 t.2.1 t.2.2 < 2 ^ (bpc * 3) := by
    intro t ht
    obtain ⟨val, hvm, hvt⟩ := List.mem_map.mp ht
    rw [← hvt]
    simp only
    rw [triVal_recomb bpc val (by rw [← hbpb]; exact hvlt val hvm)]
    rw [← hbpb]
    exact hvlt val hvm
  obtain ⟨lf, hout, hlf, hout256⟩ :=
    blocks_to_data_go_spec bpc (vals.map fun val =>
      ((val >>> (bpc * 2)) &&& ((1 <<< bpc) - 1),
        (val >>> bpc) &&& ((1 <<< bpc) - 1),
        val &&& ((1 <<< bpc) - 1))) 0 0 (by omega) htri
  set out := Decoder.blocks_to_data_go bpc (vals.map fun val =>
      ((val >>> (bpc * 2)) &&& ((1 <<< bpc) - 1),
        (val >>> bpc) &&& ((1 <<< bpc) - 1),
        val &&& ((1 <<< bpc) - 1))) 0 0 with hdefout
  have hblocksBits : (vals.map fun val =>
        ((val >>> (bpc * 2)) &&& ((1 <<< bpc) - 1),
          (val >>> bpc) &&& ((1 <<< bpc) - 1),
          val &&& ((1 <<< bpc) - 1))).flatMap
          (fun t => natBits (bpc * 3) (triVal bpc t.1 t.2.1 t.2.2)) =
      vals.flatMap (natBits bpb) := by
    rw [List.flatMap_map]
    apply List.flatMap_congr
    intro val hvm
    simp only [Function.comp_apply]
    rw [triVal_recomb bpc val (by rw [← hbpb]; exact hvlt val hvm), hbpb]
  rw [hblocksBits] at hout
  have hout' : out.flatMap (natBits 8) ++ lf =
      bytesBits d ++ List.replicate (count * bpb - 8 * L) false := by
    rw [hout, hvbits]
    rfl
  -- length bookkeeping
  have hlenfm : (out.flatMap (natBits 8)).length = out.length * 8 :=
    flatMap_const_length (natBits 8) 8 out (fun a _ => by simp)
  have hlentot := congrArg List.length hout'
  rw [List.length_append, List.length_append, hlenfm, hlenbb, List.length_replicate] at hlentot
  have houtlen : L ≤ out.length := by omega
  -- take the first 8·L bits and regroup them into bytes
  have htake : (out.take L).flatMap (natBits 8) = bytesBits d := by
    rw [flatMap_take_bytes L out]
    have h1 : (out.flatMap (natBits 8) ++ lf).take (8 * L) =
        (bytesBits d ++ List.replicate (count * bpb - 8 * L) false).take (8 * L) := by
      rw [hout']
    rw [List.take_append_of_le_length (by omega),
      List.take_append_of_le_length (by omega)] at h1
    rw [h1, List.take_of_length_le (by omega)]
  have hdfm : bytesBits d = d.flatMap (natBits 8) := rfl
  rw [hdfm] at htake
  have hfinal : out.take L = d :=
    flatMap_bytes_inj (out.take L) d
      (fun x hx => hout256 x (List.mem_of_mem_take hx))
      hbytes
      (by rw [List.length_take]; omega)
      htake
  rw [hidx]
  exact hfinal

/-- Witness for C1: packing the byte 0xAB into two blocks at `bpc = 2` and
unpacking recovers it. -/
theorem C1_witness :
    ((∀ b ∈ [(171 : Nat)], b < 256) ∧
      ((2 = 2 ∧ YT_LEVELS = YT_LEVELS) ∨ (2 = 3 ∧ YT_LEVELS = LOCAL_LEVELS)) ∧
      (8 * [(171 : Nat)].length + 3 * 2 - 1) / (3 * 2) ≤ 2) ∧
    (Decoder.blocks_to_data
        ((Encoder.data_to_blocks 2 YT_LEVELS [171] 2).map fun t =>
          (YT_LEVELS.indexOf t.1, YT_LEVELS.indexOf t.2.1, YT_LEVELS.indexOf t.2.2))
        2).take [(171 : Nat)].length = [171] :=
  ⟨⟨by decide, Or.inl ⟨rfl, rfl⟩, by decide⟩,
    C1_bitpacker_roundtrip [171] 2 YT_LEVELS 2 (by decide) (Or.inl ⟨rfl, rfl⟩) (by decide)⟩

/-! ### Majority-vote lemmas (claims C3, C7) -/

theorem foldMax_spec :
    ∀ (l : List (Nat × Nat)) (b : Nat × Nat),
      (l.foldl (fun best x => if x.2 > best.2 then x else best) b = b ∧ ∀ kv ∈ l, kv.2 ≤ b.2) ∨
      (∃ pre e post, l = pre ++ e :: post ∧
        l.foldl (fun best x => if x.2 > best.2 then x else best) b = e ∧
        b.2 < e.2 ∧ (∀ kv ∈ l, kv.2 ≤ e.2) ∧ (∀ kv ∈ pre, kv.2 < e.2)) := by
  intro l
  induction l with
  | nil => intro b; left; exact ⟨rfl, by simp⟩
  | cons kv tl ih =>
    intro b
    by_cases h : kv.2 > b.2
    · have hstep : (kv :: tl).foldl (fun best x => if x.2 > best.2 then x else best) b =
          tl.foldl (fun best x => if x.2 > best.2 then x else best) kv := by
        simp [List.foldl_cons, h]
      rcases ih kv with ⟨h1, h2⟩ | ⟨pre, e, post, heq, hr, hlt, hall, hpre⟩
      · right
        refine ⟨[], kv, tl, by simp, by rw [hstep, h1], h, ?_, by simp⟩
        intro x hx
        rcases List.mem_cons.mp hx with hx | hx
        · rw [hx]
        · exact h2 x hx
      · right
        refine ⟨kv :: pre, e, post, by simp [heq], by rw [hstep, hr], ?_, ?_, ?_⟩
        · omega
        · intro x hx
          rcases List.mem_cons.mp hx with hx | hx
          · rw [hx]; omega
          · exact hall x hx
        · intro x hx
          rcases List.mem_cons.mp hx with hx | hx
          · rw [hx]; exact hlt
          · exact hpre x hx
    · have hstep : (kv :: tl).foldl (fun best x => if x.2 > best.2 then x else best) b =
          tl.foldl (fun best x => if x.2 > best.2 then x else best) b := by
        simp [List.foldl_cons, h]
      rcases ih b with ⟨h1, h2⟩ | ⟨pre, e, post, heq, hr, hlt, hall, hpre⟩
      · left
        refine ⟨by rw [hstep, h1], ?_⟩
        intro x hx
        rcases List.mem_cons.mp hx with hx | hx
        · rw [hx]; omega
        · exact h2 x hx
      · right
        refine ⟨kv :: pre, e, post, by simp [heq], by rw [hstep, hr], hlt, ?_, ?_⟩
        · intro x hx
          rcases List.mem_cons.mp hx with hx | hx
          · rw [hx]; omega
          · exact hall x hx
        · intro x hx
          rcases List.mem_cons.mp hx with hx | hx
          · rw [hx]; omega
          · exact hpre x hx

/-- Python `max` with a key function returns the first entry attaining the
maximum: the chosen entry dominates every count, and every entry before it
is strictly smaller. -/
theorem maxKey_spec (votes : List (Nat × Nat)) (hne : votes ≠ []) :
    ∃ pre e post, votes = pre ++ e :: post ∧ maxKey votes = e.1 ∧
      (∀ kv ∈ votes, kv.2 ≤ e.2) ∧ (∀ kv ∈ pre, kv.2 < e.2) := by
  cases votes with
  | nil => exact absurd rfl hne
  | cons kv0 rest =>
    have hmk : maxKey (kv0 :: rest) =
        (rest.foldl (fun best x => if x.2 > best.2 then x else best) kv0).1 := rfl
    rcases foldMax_spec rest kv0 with ⟨h1, h2⟩ | ⟨pre, e, post, heq, hr, hlt, hall, hpre⟩
    · refine ⟨[], kv0, rest, by simp, by rw [hmk, h1], ?_, by simp⟩
      intro x hx
      rcases List.mem_cons.mp hx with hx | hx
      · rw [hx]
      · exact h2 x hx
    · refine ⟨kv0 :: pre, e, post, by simp [heq], by rw [hmk, hr], ?_, ?_⟩
      · intro x hx
        rcases List.mem_cons.mp hx with hx | hx
        · rw [hx]; omega
        · exact hall x hx
      · intro x hx
        rcases List.mem_cons.mp hx with hx | hx
        · rw [hx]; exact hlt
        · exact hpre x hx

theorem addVote_entries (k : Nat) :
    ∀ (votes : List (Nat × Nat)), (votes.map Prod.fst).Nodup →
      addVote votes k =
        if k ∈ votes.map Prod.fst then
          votes.map fun kv => if kv.1 = k then (kv.1, kv.2 + 1) else kv
        else votes ++ [(k, 1)] := by
  intro votes
  induction votes with
  | nil => intro _; simp [addVote]
  | cons kv rest ih =>
    intro hnd
    obtain ⟨k1, c⟩ := kv
    rw [List.map_cons, List.nodup_cons] at hnd
    by_cases h1 : k1 = k
    · subst h1

      have hknotin : k1 ∉ rest.map Prod.fst := hnd.1
      have hid : (rest.map fun kv => if kv.1 = k1 then (kv.1, kv.2 + 1) else kv) = rest := by
        conv_rhs => rw [← List.map_id rest]
        apply List.map_congr_left
        intro kv hkv
        have : kv.1 ≠ k1 := fun hc => hknotin (by rw [← hc]; exact List.mem_map_of_mem _ hkv)
        simp [this]
      simp [addVote, hid]
    · have hstep : addVote ((k1, c) :: rest) k = (k1, c) :: addVote rest k := by
        simp [addVote, h1]
      rw [hstep, ih hnd.2]
      by_cases h2 : k ∈ rest.map Prod.fst
      · have hmem : k ∈ ((k1, c) :: rest).map Prod.fst := by simp [h2]
        simp [h2, hmem, h1, Ne.symm h1]
      · have hmem : k ∉ ((k1, c) :: rest).map Prod.fst := by
          simp [h2, Ne.symm h1]
        simp [h2, hmem, Ne.symm h1]

/-- Invariant of the Python dict tally: entry values are occurrence counts,
keys are exactly the seen indices, and keys appear in strictly increasing
first-occurrence order. -/
theorem votesOf_spec (xs : List Nat) :
    (∀ kv ∈ votesOf xs, kv.2 = xs.count kv.1) ∧
    (∀ k, k ∈ xs ↔ k ∈ (votesOf xs).map Prod.fst) ∧
    List.Pairwise (fun a b => xs.indexOf a < xs.indexOf b) ((votesOf xs).map Prod.fst) := by
  induction xs using List.reverseRecOn with
  | nil => refine ⟨by simp [votesOf], by simp [votesOf], by simp [votesOf]⟩
  | append_singleton xs k ih =>
    obtain ⟨P1, P3, P4⟩ := ih
    have hnd : ((votesOf xs).map Prod.fst).Nodup :=
      P4.imp fun {a b} h heq => by rw [heq] at h; omega
    have hsnoc : votesOf (xs ++ [k]) = addVote (votesOf xs) k := by
      rw [votesOf, votesOf, List.foldl_append, List.foldl_cons, List.foldl_nil]
    rw [hsnoc, addVote_entries k (votesOf xs) hnd]
    by_cases hk : k ∈ (votesOf xs).map Prod.fst
    · have hkxs : k ∈ xs := (P3 k).mpr hk
      rw [if_pos hk]
      have hkeys : ((votesOf xs).map fun kv =>
          if kv.1 = k then (kv.1, kv.2 + 1) else kv).map Prod.fst = (votesOf xs).map Prod.fst := by
        rw [List.map_map]
        apply List.map_congr_left
        intro kv _
        by_cases h : kv.1 = k <;> simp [h]
      refine ⟨?_, ?_, ?_⟩
      · intro kv hkv
        obtain ⟨kv0, hkv0, hmap⟩ := List.mem_map.mp hkv
        by_cases h : kv0.1 = k
        · rw [if_pos h] at hmap
          rw [← hmap]
          simp only
          rw [P1 kv0 hkv0, h, List.count_append, List.count_singleton', if_pos rfl]
        · rw [if_neg h] at hmap
          rw [← hmap, P1 kv0 hkv0, List.count_append, List.count_singleton',
            if_neg fun hh => h hh.symm]
          omega
      · intro k0
        rw [hkeys, ← P3 k0]
        constructor
        · intro h
          rcases List.mem_append.mp h with h | h
          · exact h
          · rw [List.mem_singleton.mp h]; exact hkxs
        · intro h; exact List.mem_append_left _ h
      · rw [hkeys]
        apply List.Pairwise.imp_of_mem ?_ P4
        intro a b hma hmb hab
        have ha : a ∈ xs := (P3 a).mpr hma
        have hb : b ∈ xs := (P3 b).mpr hmb
        rw [List.indexOf_append_of_mem ha, List.indexOf_append_of_mem hb]
        exact hab
    · have hkxs : k ∉ xs := fun hc => hk ((P3 k).mp hc)
      rw [if_neg hk]
      refine ⟨?_, ?_, ?_⟩
      · intro kv hkv
        rcases List.mem_append.mp hkv with h | h
        · have hne : kv.1 ≠ k := fun hc =>
            hk (by rw [← hc]; exact List.mem_map_of_mem _ h)
          rw [P1 kv h, List.count_append, List.count_singleton',
            if_neg fun hh => hne hh.symm]
          omega
        · rw [List.mem_singleton.mp h]
          simp only
          rw [List.count_append, List.count_singleton', if_pos rfl,
            List.count_eq_zero.mpr hkxs]
      · intro k0
        rw [List.map_append]
        constructor
        · intro h
          rcases List.mem_append.mp h with h | h
          · exact List.mem_append_left _ ((P3 k0).mp h)
          · rw [List.mem_singleton.mp h]
            exact List.mem_append_right _ (by simp)
        · intro h
          rcases List.mem_append.mp h with h | h
          · exact List.mem_append_left _ ((P3 k0).mpr h)
          · simp at h
            rw [h]
            exact List.mem_append_right _ (by simp)
      · rw [List.map_append]
        rw [List.pairwise_append]
        refine ⟨?_, by simp, ?_⟩
        · apply List.Pairwise.imp_of_mem ?_ P4
          intro a b hma hmb hab
          have ha : a ∈ xs := (P3 a).mpr hma
          have hb : b ∈ xs := (P3 b).mpr hmb
          rw [List.indexOf_append_of_mem ha, List.indexOf_append_of_mem hb]
          exact hab
        · intro a ha b hb
          simp only [List.map_cons, List.map_nil, List.mem_singleton] at hb
          rw [hb]
          have haxs : a ∈ xs := (P3 a).mpr ha
          rw [List.indexOf_append_of_mem haxs, List.indexOf_append_of_not_mem hkxs]
          have := List.indexOf_lt_length.mpr haxs
          simp only [List.indexOf_cons_self]
          omega

/-- The index chosen from a non-empty list of channel votes is one of the
votes, has maximal occurrence count, and among the indices attaining the
maximal count it is the first-occurring one. -/
theorem chosen_spec (xs : List Nat) (hne : xs ≠ []) :
    maxKey (votesOf xs) ∈ xs ∧
    (∀ k ∈ xs, xs.count k ≤ xs.count (maxKey (votesOf xs))) ∧
    (∀ k ∈ xs, xs.count k = xs.count (maxKey (votesOf xs)) →
      xs.indexOf (maxKey (votesOf xs)) ≤ xs.indexOf k) := by
  obtain ⟨P1, P3, P4⟩ := votesOf_spec xs
  have hvne : votesOf xs ≠ [] := by
    obtain ⟨a, ha⟩ := List.exists_mem_of_ne_nil xs hne
    have := (P3 a).mp ha
    obtain ⟨kv, hkv, _⟩ := List.mem_map.mp this
    exact List.ne_nil_of_mem hkv
  obtain ⟨pre, e, post, hsplit, hmk, hall, hpre⟩ := maxKey_spec (votesOf xs) hvne
  have hein : e ∈ votesOf xs := by
    rw [hsplit]; exact List.mem_append_right _ (List.mem_cons_self _ _)
  have he2 : e.2 = xs.count e.1 := P1 e hein
  have hmmem : maxKey (votesOf xs) ∈ xs := by
    rw [hmk]; exact (P3 e.1).mpr (List.mem_map_of_mem _ hein)
  refine ⟨hmmem, ?_, ?_⟩
  · intro k hk
    obtain ⟨kv, hkv, hfst⟩ := List.mem_map.mp ((P3 k).mp hk)
    have := hall kv hkv
    rw [hmk, ← he2, ← hfst, ← P1 kv hkv]
    exact this
  · intro k hk hcnt
    by_cases hkm : k = maxKey (votesOf xs)
    · rw [hkm]
    · obtain ⟨kv, hkv, hfst⟩ := List.mem_map.mp ((P3 k).mp hk)
      have hkvne : kv ≠ e := by
        intro hc
        rw [hc] at hfst
        rw [← hfst, ← hmk] at hkm
        exact hkm rfl
      rw [hsplit] at hkv
      rcases List.mem_append.mp hkv with hin | hin
      · -- an entry before the chosen one has a strictly smaller count
        have hlt := hpre kv hin
        rw [P1 kv (by rw [hsplit]; exact List.mem_append_left _ hin), hfst, hcnt] at hlt
        rw [hmk, ← he2] at hlt
        omega
      · rcases List.mem_cons.mp hin with hin | hin
        · exact absurd hin hkvne
        · -- the chosen key occurs first: use the sorted key order
          have hkeys : ((votesOf xs).map Prod.fst) =
              pre.map Prod.fst ++ e.1 :: post.map Prod.fst := by
            rw [hsplit, List.map_append, List.map_cons]
          rw [hkeys] at P4
          have hp2 := (List.pairwise_append.mp P4).2.1
          have := (List.pairwise_cons.mp hp2).1 kv.1 (List.mem_map_of_mem _ hin)
          rw [hmk, hfst] at *
          omega

theorem getD_map_range {α : Type} (f : Nat → α) (n i : Nat) (d : α) (h : i < n) :
    ((List.range n).map f).getD i d = f i := by
  rw [List.getD_eq_getElem _ _ (by simpa using h)]
  simp

/-- C3 counterexample: three repeated 2x2 frames whose single block decodes
to red-channel indices 3, 1, 2 — a three-way tie with one vote each.  The
merge picks index 3 (the first seen), not the smallest index 1. -/
theorem C3_counterexample :
    Decoder.merge_repeated_frames
        [[0, 0, 0, 0, 0, 0, 0, 0, 0, 255, 0, 0],
          [0, 0, 0, 0, 0, 0, 0, 0, 0, 85, 0, 0],
          [0, 0, 0, 0, 0, 0, 0, 0, 0, 170, 0, 0]] 2 2 2 YT_LEVELS 2 3 none = [(3, 0, 0)] ∧
    ([[0, 0, 0, 0, 0, 0, 0, 0, 0, 255, 0, 0],
        [0, 0, 0, 0, 0, 0, 0, 0, 0, 85, 0, 0],
        [0, 0, 0, 0, 0, 0, 0, 0, 0, 170, 0, 0]].map fun f =>
          ((frame_to_blocks f 2 2 2 YT_LEVELS none).getD 0 (0, 0, 0)).1) = [3, 1, 2] ∧
    [3, 1, 2].count 1 = [3, 1, 2].count 3 ∧ (1 : Nat) < 3 := by
  refine ⟨by decide, by decide, by decide, by decide⟩

/-- C3 (amended): in the majority vote of `Decoder._merge_repeated_frames`,
the chosen index for every block and channel attains the maximal vote count,
and a tie between maximal indices is broken in favour of the index whose
first occurrence across the repeated frames comes earliest (Python dict
insertion order) — not the smallest index. -/
theorem C3_merge_vote_first_seen (all_blocks : List (List (Nat × Nat × Nat)))
    (n bi : Nat) (hbi : bi < n) (hne : all_blocks ≠ [])
    (ch : (Nat × Nat × Nat) → Nat)
    (hch : ch = (fun t => t.1) ∨ ch = (fun t => t.2.1) ∨ ch = (fun t => t.2.2))
    (chans : List Nat)
    (hchans : chans = all_blocks.map fun blk => ch (blk.getD bi (0, 0, 0))) :
    ch ((mergeBlockLists all_blocks n).getD bi (0, 0, 0)) ∈ chans ∧
    (∀ k ∈ chans, chans.count k ≤
      chans.count (ch ((mergeBlockLists all_blocks n).getD bi (0, 0, 0)))) ∧
    (∀ k ∈ chans, chans.count k =
        chans.count (ch ((mergeBlockLists all_blocks n).getD bi (0, 0, 0))) →
      chans.indexOf (ch ((mergeBlockLists all_blocks n).getD bi (0, 0, 0))) ≤
        chans.indexOf k) := by
  have hgd : (mergeBlockLists all_blocks n).getD bi (0, 0, 0) =
      (maxKey (votesOf (all_blocks.map fun blk => (blk.getD bi (0, 0, 0)).1)),
        maxKey (votesOf (all_blocks.map fun blk => (blk.getD bi (0, 0, 0)).2.1)),
        maxKey (votesOf (all_blocks.map fun blk => (blk.getD bi (0, 0, 0)).2.2))) := by
    rw [mergeBlockLists]
    exact getD_map_range _ n bi _ hbi
  have hcne : chans ≠ [] := by
    rw [hchans]
    intro hc
    exact hne (List.map_eq_nil_iff.mp hc)
  have hres : ch ((mergeBlockLists all_blocks n).getD bi (0, 0, 0)) =
      maxKey (votesOf chans) := by
    rw [hgd, hchans]
    rcases hch with h | h | h <;> rw [h]
  rw [hres]
  exact chosen_spec chans hcne

/-- Witness for the amended C3 at a concrete vote: frames deliver red
indices 3, 1, 2 for the single block; the chosen index 3 is first-occurring
among the maximal ones. -/
theorem C3_witness :
    (0 < 1 ∧ ([[(3, 0, 0)], [(1, 0, 0)], [(2, 0, 0)]] :
        List (List (Nat × Nat × Nat))) ≠ [] ∧
      ([3, 1, 2] : List Nat) =
        [[(3, 0, 0)], [(1, 0, 0)], [(2, 0, 0)]].map
          (fun blk => ((blk.getD 0 ((0 : Nat), (0 : Nat), (0 : Nat)))).1)) ∧
    ((fun t : Nat × Nat × Nat => t.1)
        ((mergeBlockLists [[(3, 0, 0)], [(1, 0, 0)], [(2, 0, 0)]] 1).getD 0 (0, 0, 0)) ∈
          ([3, 1, 2] : List Nat) ∧
      (∀ k ∈ ([3, 1, 2] : List Nat), List.count k [3, 1, 2] ≤
        List.count ((fun t : Nat × Nat × Nat => t.1)
          ((mergeBlockLists [[(3, 0, 0)], [(1, 0, 0)], [(2, 0, 0)]] 1).getD 0 (0, 0, 0)))
          [3, 1, 2]) ∧
      (∀ k ∈ ([3, 1, 2] : List Nat), List.count k [3, 1, 2] =
          List.count ((fun t : Nat × Nat × Nat => t.1)
            ((mergeBlockLists [[(3, 0, 0)], [(1, 0, 0)], [(2, 0, 0)]] 1).getD 0 (0, 0, 0)))
            [3, 1, 2] →
        List.indexOf ((fun t : Nat × Nat × Nat => t.1)
            ((mergeBlockLists [[(3, 0, 0)], [(1, 0, 0)], [(2, 0, 0)]] 1).getD 0 (0, 0, 0)))
            [3, 1, 2] ≤ List.indexOf k [3, 1, 2])) :=
  ⟨⟨by decide, by decide, by decide⟩,
    C3_merge_vote_first_seen [[(3, 0, 0)], [(1, 0, 0)], [(2, 0, 0)]] 1 0 (by decide)
      (by decide) (fun t => t.1) (Or.inl rfl) [3, 1, 2] (by decide)⟩

theorem vote_two_one (x y : Nat) :
    maxKey (votesOf [x, x, y]) = x ∧ maxKey (votesOf [x, y, x]) = x ∧
    maxKey (votesOf [y, x, x]) = x := by
  by_cases h : x = y
  · subst h
    refine ⟨?_, ?_, ?_⟩ <;> simp [votesOf, addVote, maxKey]
  · refine ⟨?_, ?_, ?_⟩ <;> simp [votesOf, addVote, maxKey, h, Ne.symm h]

/-- C7: with `repeat = 3`, corrupting a single channel index of a single
block in exactly one of the three decoded repeats leaves the merged block
sequence — and hence the unpacked payload — unchanged. -/
theorem C7_majority_tolerance (B C : List (Nat × Nat × Nat)) (bi0 : Nat)
    (lists : List (List (Nat × Nat × Nat))) (n bpc : Nat)
    (hlists : lists = [C, B, B] ∨ lists = [B, C, B] ∨ lists = [B, B, C])
    (hCB : ∀ i, i ≠ bi0 → C.getD i (0, 0, 0) = B.getD i (0, 0, 0))
    (hchan :
      ((C.getD bi0 (0, 0, 0)).2.1 = (B.getD bi0 (0, 0, 0)).2.1 ∧
        (C.getD bi0 (0, 0, 0)).2.2 = (B.getD bi0 (0, 0, 0)).2.2) ∨
      ((C.getD bi0 (0, 0, 0)).1 = (B.getD bi0 (0, 0, 0)).1 ∧
        (C.getD bi0 (0, 0, 0)).2.2 = (B.getD bi0 (0, 0, 0)).2.2) ∨
      ((C.getD bi0 (0, 0, 0)).1 = (B.getD bi0 (0, 0, 0)).1 ∧
        (C.getD bi0 (0, 0, 0)).2.1 = (B.getD bi0 (0, 0, 0)).2.1)) :
    mergeBlockLists lists n = mergeBlockLists [B, B, B] n ∧
    Decoder.blocks_to_data (mergeBlockLists lists n) bpc =
      Decoder.blocks_to_data (mergeBlockLists [B, B, B] n) bpc := by
  have hmain : mergeBlockLists lists n = mergeBlockLists [B, B, B] n := by
    rw [mergeBlockLists, mergeBlockLists]
    apply List.map_congr_left
    intro bi _
    have hx : ∀ proj : (Nat × Nat × Nat) → Nat,
        maxKey (votesOf (lists.map fun blk => proj (blk.getD bi (0, 0, 0)))) =
        maxKey (votesOf ([B, B, B].map fun blk => proj (blk.getD bi (0, 0, 0)))) := by
      intro proj
      by_cases hbi : bi = bi0
      · rw [hbi]
        rcases hlists with h | h | h <;> rw [h] <;>
          simp only [List.map_cons, List.map_nil]
        · exact ((vote_two_one (proj (B.getD bi0 (0, 0, 0)))
              (proj (C.getD bi0 (0, 0, 0)))).2.2).trans
            ((vote_two_one (proj (B.getD bi0 (0, 0, 0)))
              (proj (B.getD bi0 (0, 0, 0)))).2.2).symm
        · exact ((vote_two_one (proj (B.getD bi0 (0, 0, 0)))
              (proj (C.getD bi0 (0, 0, 0)))).2.1).trans
            ((vote_two_one (proj (B.getD bi0 (0, 0, 0)))
              (proj (B.getD bi0 (0, 0, 0)))).2.1).symm
        · exact ((vote_two_one (proj (B.getD bi0 (0, 0, 0)))
              (proj (C.getD bi0 (0, 0, 0)))).1).trans
            ((vote_two_one (proj (B.getD bi0 (0, 0, 0)))
              (proj (B.getD bi0 (0, 0, 0)))).1).symm
      · have hc : C.getD bi (0, 0, 0) = B.getD bi (0, 0, 0) := hCB bi hbi
        rcases hlists with h | h | h <;> rw [h] <;>
          simp only [List.map_cons, List.map_nil, hc]
    simp only [Prod.mk.injEq]
    exact ⟨hx fun t => t.1, hx fun t => t.2.1, hx fun t => t.2.2⟩
  exact ⟨hmain, by rw [hmain]⟩

/-- Witness for C7: a corrupted first repeat with the red index of the only
block flipped still merges to the clean block list. -/
theorem C7_witness :
    (([[(1, 0, 0)], [(0, 0, 0)], [(0, 0, 0)]] : List (List (Nat × Nat × Nat))) =
        [[(1, 0, 0)], [(0, 0, 0)], [(0, 0, 0)]] ∨
      ([[(1, 0, 0)], [(0, 0, 0)], [(0, 0, 0)]] : List (List (Nat × Nat × Nat))) =
        [[(0, 0, 0)], [(1, 0, 0)], [(0, 0, 0)]] ∨
      ([[(1, 0, 0)], [(0, 0, 0)], [(0, 0, 0)]] : List (List (Nat × Nat × Nat))) =
        [[(0, 0, 0)], [(0, 0, 0)], [(1, 0, 0)]]) ∧
    (mergeBlockLists [[(1, 0, 0)], [(0, 0, 0)], [(0, 0, 0)]] 1 =
        mergeBlockLists [[(0, 0, 0)], [(0, 0, 0)], [(0, 0, 0)]] 1 ∧
      Decoder.blocks_to_data (mergeBlockLists [[(1, 0, 0)], [(0, 0, 0)], [(0, 0, 0)]] 1) 2 =
        Decoder.blocks_to_data
          (mergeBlockLists [[(0, 0, 0)], [(0, 0, 0)], [(0, 0, 0)]] 1) 2) :=
  ⟨Or.inl rfl,
    C7_majority_tolerance [(0, 0, 0)] [(1, 0, 0)] 0
      [[(1, 0, 0)], [(0, 0, 0)], [(0, 0, 0)]] 1 2 (Or.inl rfl)
      (fun i hi => by cases i with | zero => exact absurd rfl hi | succ m => rfl)
      (Or.inl ⟨rfl, rfl⟩)⟩

/-! ### Calibration lemmas (claim C4) -/

theorem flatten_const_length {α : Type} (L : Nat) :
    ∀ l : List (List α), (∀ x ∈ l, x.length = L) → l.flatten.length = l.length * L := by
  intro l
  induction l with
  | nil => intro _; simp
  | cons x tl ih =>
    intro h
    rw [List.flatten_cons, List.length_append, h x (List.mem_cons_self _ _),
      ih fun y hy => h y (List.mem_cons_of_mem _ hy), List.length_cons, Nat.succ_mul]
    omega

theorem flatten_getD {α : Type} (d : α) (L : Nat) :
    ∀ (l : List (List α)) (i j : Nat), (∀ x ∈ l, x.length = L) → j < L →
      l.flatten.getD (i * L + j) d = (l.getD i []).getD j d := by
  intro l
  induction l with
  | nil => intro i j _ _; simp [List.getD]
  | cons x tl ih =>
    intro i j hlen hj
    have hx : x.length = L := hlen x (List.mem_cons_self _ _)
    cases i with
    | zero =>
      rw [List.flatten_cons, Nat.zero_mul, Nat.zero_add,
        List.getD_append _ _ _ _ (by omega)]
      rfl
    | succ i =>
      rw [List.flatten_cons]
      have hpos : (i + 1) * L + j = x.length + (i * L + j) := by rw [hx]; ring
      rw [hpos, List.getD_append_right _ _ _ _ (by omega), Nat.add_sub_cancel_left,
        ih i j (fun y hy => hlen y (List.mem_cons_of_mem _ hy)) hj]
      rfl

theorem getD_replicate {α : Type} (a d : α) {n i : Nat} (h : i < n) :
    (List.replicate n a).getD i d = a := by
  rw [List.getD_eq_getElem _ _ (by simpa using h)]
  simp

theorem calSeg_length (levels : List Nat) (gw gh bs gx gy : Nat) :
    (calSeg levels gw gh bs gx gy).length = bs * 3 := by
  simp only [calSeg]
  rw [flatten_const_length 3 _ fun x hx => by rw [List.eq_of_mem_replicate hx]; rfl]
  simp

theorem calRow_length (width bs : Nat) (levels : List Nat) (gh gy : Nat) :
    (calRow width bs levels gh gy).length = width * 3 := by
  rw [calRow, List.length_append, List.length_replicate,
    flatten_const_length (bs * 3) _ (fun x hx => by
      obtain ⟨gx, _, hseg⟩ := List.mem_map.mp hx
      rw [← hseg]
      exact calSeg_length levels (width / bs) gh bs gx gy), List.length_map,
    List.length_range]
  have hle : width / bs * bs ≤ width := Nat.div_mul_le_self width bs
  have h1 : width / bs * (bs * 3) = width / bs * bs * 3 := by ring
  omega

/-- The value of a pixel of the generated calibration frame inside full
block `(gx, gy)`: the channel `ch` of the block color. -/
theorem calibration_pixel (width height bs : Nat) (levels : List Nat)
    (gy gx u v ch : Nat)
    (hgy : gy < height / bs) (hgx : gx < width / bs) (hu : u < bs) (hv : v < bs)
    (hch : ch < 3) :
    (generate_calibration_frame width height bs levels).getD
      ((gy * bs + u) * (width * 3) + ((gx * bs + v) * 3 + ch)) 0 =
    [(calColor levels (width / bs) (height / bs) gx gy).1,
      (calColor levels (width / bs) (height / bs) gx gy).2.1,
      (calColor levels (width / bs) (height / bs) gx gy).2.2].getD ch 0 := by
  set gw := width / bs with hgw
  set gh := height / bs with hgh
  set w3 := width * 3 with hw3
  -- bounds
  have hBlt : (gx * bs + v) * 3 + ch < w3 := by
    have h1 : gx * bs + v < gw * bs := by
      calc gx * bs + v < gx * bs + bs := by omega
        _ = (gx + 1) * bs := by ring
        _ ≤ gw * bs := Nat.mul_le_mul_right bs (by omega)
    have h2 : gx * bs + v < width := lt_of_lt_of_le h1 (Nat.div_mul_le_self width bs)
    rw [hw3]; omega
  have hjlt : u * w3 + ((gx * bs + v) * 3 + ch) < bs * w3 := by
    calc u * w3 + ((gx * bs + v) * 3 + ch) < u * w3 + w3 := by omega
      _ = (u + 1) * w3 := by ring
      _ ≤ bs * w3 := Nat.mul_le_mul_right w3 (by omega)
  have hrowlen : ∀ gy', (calRow width bs levels gh gy').length = w3 :=
    fun gy' => calRow_length width bs levels gh gy'
  have hblocklen : ∀ x ∈ (List.range gh).map fun gy' =>
      (List.replicate bs (calRow width bs levels gh gy')).flatten, x.length = bs * w3 := by
    intro x hx
    obtain ⟨gy', _, hmap⟩ := List.mem_map.mp hx
    rw [← hmap, flatten_const_length w3 _ (fun y hy => by
      rw [List.eq_of_mem_replicate hy]; exact hrowlen gy'), List.length_replicate]
  have hbodylen : (((List.range gh).map fun gy' =>
      (List.replicate bs (calRow width bs levels gh gy')).flatten).flatten).length =
      gh * (bs * w3) := by
    rw [flatten_const_length (bs * w3) _ hblocklen, List.length_map, List.length_range]
  have hposlt : (gy * bs + u) * w3 + ((gx * bs + v) * 3 + ch) < gh * (bs * w3) := by
    have h1 : gy * bs + u < gh * bs := by
      calc gy * bs + u < gy * bs + bs := by omega
        _ = (gy + 1) * bs := by ring
        _ ≤ gh * bs := Nat.mul_le_mul_right bs (by omega)
    calc (gy * bs + u) * w3 + ((gx * bs + v) * 3 + ch)
        < (gy * bs + u) * w3 + w3 := by omega
      _ = (gy * bs + u + 1) * w3 := by ring
      _ ≤ (gh * bs) * w3 := Nat.mul_le_mul_right w3 (by omega)
      _ = gh * (bs * w3) := by ring
  rw [generate_calibration_frame]
  rw [List.getD_append _ _ _ _ (by rw [hbodylen]; exact hposlt)]
  have hsplit1 : (gy * bs + u) * w3 + ((gx * bs + v) * 3 + ch) =
      gy * (bs * w3) + (u * w3 + ((gx * bs + v) * 3 + ch)) := by ring
  rw [hsplit1, flatten_getD _ (bs * w3) _ gy _ hblocklen hjlt,
    getD_map_range _ gh gy _ hgy,
    flatten_getD _ w3 _ u _ (fun y hy => by rw [List.eq_of_mem_replicate hy]; exact hrowlen gy)
      hBlt,
    getD_replicate _ _ hu]
  rw [calRow]
  have hsegslen : (((List.range gw).map fun gx' =>
      calSeg levels gw gh bs gx' gy).flatten).length = gw * (bs * 3) := by
    rw [flatten_const_length (bs * 3) _ (fun x hx => by
      obtain ⟨gx', _, hmap⟩ := List.mem_map.mp hx
      rw [← hmap]; exact calSeg_length levels gw gh bs gx' gy), List.length_map,
      List.length_range]
  have hseglt : v * 3 + ch < bs * 3 := by
    calc v * 3 + ch < v * 3 + 3 := by omega
      _ = (v + 1) * 3 := by ring
      _ ≤ bs * 3 := Nat.mul_le_mul_right 3 (by omega)
  have hinlt : (gx * bs + v) * 3 + ch < gw * (bs * 3) := by
    have h1 : gx * bs + v < gw * bs := by
      calc gx * bs + v < gx * bs + bs := by omega
        _ = (gx + 1) * bs := by ring
        _ ≤ gw * bs := Nat.mul_le_mul_right bs (by omega)
    calc (gx * bs + v) * 3 + ch < (gx * bs + v) * 3 + 3 := by omega
      _ = (gx * bs + v + 1) * 3 := by ring
      _ ≤ (gw * bs) * 3 := Nat.mul_le_mul_right 3 (by omega)
      _ = gw * (bs * 3) := by ring
  rw [List.getD_append _ _ _ _ (by rw [hsegslen]; exact hinlt)]
  have hsplit2 : (gx * bs + v) * 3 + ch = gx * (bs * 3) + (v * 3 + ch) := by ring
  rw [hsplit2, flatten_getD _ (bs * 3) _ gx _ (fun x hx => by
      obtain ⟨gx', _, hmap⟩ := List.mem_map.mp hx
      rw [← hmap]; exact calSeg_length levels gw gh bs gx' gy) hseglt,
    getD_map_range _ gw gx _ hgx]
  rw [calSeg]
  rw [flatten_getD _ 3 _ v _ (fun y hy => by rw [List.eq_of_mem_replicate hy]; rfl) (by omega),
    getD_replicate _ _ hv]

theorem calSamples_mem {gw gh : Nat} {p : Nat × Nat} (hp : p ∈ calSamples gw gh) :
    2 ≤ p.1 ∧ p.1 < min (gh - 2) 10 ∧ 2 ≤ p.2 ∧ p.2 < min (gw - 2) 10 := by
  rw [calSamples] at hp
  obtain ⟨gy, hgy, hmem⟩ := List.mem_flatMap.mp hp
  obtain ⟨gx, hgx, hpe⟩ := List.mem_map.mp hmem
  rw [List.mem_range'_1] at hgy hgx
  rw [← hpe]
  refine ⟨hgy.1, by omega, hgx.1, by omega⟩

/-- Inside the sampled region the generated frame shows exactly the expected
interior color triple. -/
theorem calActual_eq_expected (width height bs : Nat) (levels : List Nat)
    (hbs : 0 < bs) (gy gx : Nat)
    (hgy2 : 2 ≤ gy) (hgyu : gy < height / bs - 2) (hgx2 : 2 ≤ gx)
    (hgxu : gx < width / bs - 2) :
    calActual (generate_calibration_frame width height bs levels) width bs gy gx =
      calExpected levels (width / bs) gy gx := by
  have hhalf : bs / 2 < bs := Nat.div_lt_self hbs (by omega)
  have hgy' : gy < height / bs := by omega
  have hgx' : gx < width / bs := by omega
  have hcc : calColor levels (width / bs) (height / bs) gx gy =
      calExpected levels (width / bs) gy gx := by
    rw [calColor, if_neg (by push_neg; omega)]
    rfl
  have hpix := fun (ch : Nat) (hch : ch < 3) =>
    calibration_pixel width height bs levels gy gx (bs / 2) (bs / 2) ch hgy' hgx'
      hhalf hhalf hch
  have h0 := hpix 0 (by omega)
  have h1 := hpix 1 (by omega)
  have h2 := hpix 2 (by omega)
  have ho0 : (gy * bs + bs / 2) * (width * 3) + (gx * bs + bs / 2) * 3 =
      (gy * bs + bs / 2) * (width * 3) + ((gx * bs + bs / 2) * 3 + 0) := by omega
  have ho1 : (gy * bs + bs / 2) * (width * 3) + (gx * bs + bs / 2) * 3 + 1 =
      (gy * bs + bs / 2) * (width * 3) + ((gx * bs + bs / 2) * 3 + 1) := by omega
  have ho2 : (gy * bs + bs / 2) * (width * 3) + (gx * bs + bs / 2) * 3 + 2 =
      (gy * bs + bs / 2) * (width * 3) + ((gx * bs + bs / 2) * 3 + 2) := by omega
  rw [calActual]
  rw [ho2, ho1, ho0, h0, h1, h2, hcc]
  rfl

/-- C4: calibration self-consistency.  On the frame produced by
`generate_calibration_frame`, `detect_calibration_shift` with the same
geometry and palette returns offsets `(0, 0, 0)` and error rate `0`. -/
theorem C4_calibration_selfconsistent (width height bs : Nat) (levels : List Nat)
    (hbs : 0 < bs) (hgw : 5 ≤ width / bs) (hgh : 5 ≤ height / bs)
    (hl : levels = YT_LEVELS ∨ levels = LOCAL_LEVELS) :
    detect_calibration_shift (generate_calibration_frame width height bs levels)
      width height bs levels = (0, 0, 0, (0 : ℚ)) := by
  have hlen : 0 < levels.length := by rcases hl with h | h <;> subst h <;> decide
  have hlut : ∀ j < levels.length,
      (build_lut levels).getD (levels.getD j 0) 0 = levels.indexOf (levels.getD j 0) := by
    rcases hl with h | h <;> subst h <;> decide
  set F := generate_calibration_frame width height bs levels with hF
  have hpt : ∀ p ∈ calSamples (width / bs) (height / bs),
      calActual F width bs p.1 p.2 = calExpected levels (width / bs) p.1 p.2 := by
    intro p hp
    obtain ⟨h1, h2, h3, h4⟩ := calSamples_mem hp
    exact calActual_eq_expected width height bs levels hbs p.1 p.2 h1 (by omega) h3 (by omega)
  have hlute : ∀ gy gx : Nat,
      ((build_lut levels).getD (calExpected levels (width / bs) gy gx).1 0 =
        levels.indexOf (calExpected levels (width / bs) gy gx).1) ∧
      ((build_lut levels).getD (calExpected levels (width / bs) gy gx).2.1 0 =
        levels.indexOf (calExpected levels (width / bs) gy gx).2.1) ∧
      ((build_lut levels).getD (calExpected levels (width / bs) gy gx).2.2 0 =
        levels.indexOf (calExpected levels (width / bs) gy gx).2.2) := by
    intro gy gx
    simp only [calExpected]
    exact ⟨hlut _ (Nat.mod_lt _ hlen), hlut _ (Nat.mod_lt _ hlen),
      hlut _ (Nat.mod_lt _ hlen)⟩
  have hne : (2, 2) ∈ calSamples (width / bs) (height / bs) := by
    rw [calSamples]
    apply List.mem_flatMap.mpr
    refine ⟨2, ?_, ?_⟩
    · rw [List.mem_range'_1]; omega
    · apply List.mem_map.mpr
      refine ⟨2, ?_, rfl⟩
      rw [List.mem_range'_1]; omega
  rw [detect_calibration_shift]
  have hie : ((calSamples (width / bs) (height / bs)).map fun p =>
      ((calActual F width bs p.1 p.2).1 : Int) -
        ((calExpected levels (width / bs) p.1 p.2).1 : Int)).isEmpty = false := by
    rcases hs : calSamples (width / bs) (height / bs) with _ | ⟨q, tl⟩
    · rw [hs] at hne; simp at hne
    · rfl
  rw [if_neg (by rw [hie]; simp)]
  have hsum : ∀ proj : Nat × Nat × Nat → Nat,
      ((calSamples (width / bs) (height / bs)).map fun p =>
        ((proj (calActual F width bs p.1 p.2)) : Int) -
          ((proj (calExpected levels (width / bs) p.1 p.2)) : Int)).sum = 0 := by
    intro proj
    apply List.sum_eq_zero
    intro x hx
    obtain ⟨p, hp, hxe⟩ := List.mem_map.mp hx
    rw [← hxe, hpt p hp]
    omega
  have herr : ((calSamples (width / bs) (height / bs)).map fun p =>
      (if (build_lut levels).getD (calActual F width bs p.1 p.2).1 0 ≠
          levels.indexOf (calExpected levels (width / bs) p.1 p.2).1 then 1 else 0) +
      (if (build_lut levels).getD (calActual F width bs p.1 p.2).2.1 0 ≠
          levels.indexOf (calExpected levels (width / bs) p.1 p.2).2.1 then 1 else 0) +
      (if (build_lut levels).getD (calActual F width bs p.1 p.2).2.2 0 ≠
          levels.indexOf (calExpected levels (width / bs) p.1 p.2).2.2 then 1 else 0)).sum =
      (0 : Nat) := by
    apply List.sum_eq_zero
    intro x hx
    obtain ⟨p, hp, hxe⟩ := List.mem_map.mp hx
    rw [← hxe, hpt p hp]
    obtain ⟨e1, e2, e3⟩ := hlute p.1 p.2
    rw [if_neg (by intro hc; exact hc e1), if_neg (by intro hc; exact hc e2),
      if_neg (by intro hc; exact hc e3)]
    rfl
  rw [hsum fun t => t.1, hsum fun t => t.2.1, hsum fun t => t.2.2, herr]
  have hz : ∀ n : Nat, (0 : Int).fdiv n = 0 := fun n => Int.zero_fdiv n
  rw [hz, hz, hz]
  by_cases ht : 3 * (calSamples (width / bs) (height / bs)).length > 0
  · rw [if_pos ht]
    norm_num
  · rw [if_neg ht]

/-- Witness for C4 on the smallest qualifying geometry, 5x5 pixels with
1-pixel blocks and the 4-entry palette. -/
theorem C4_witness :
    (0 < 1 ∧ 5 ≤ 5 / 1 ∧ 5 ≤ 5 / 1 ∧
      (YT_LEVELS = YT_LEVELS ∨ YT_LEVELS = LOCAL_LEVELS)) ∧
    detect_calibration_shift (generate_calibration_frame 5 5 1 YT_LEVELS) 5 5 1 YT_LEVELS =
      (0, 0, 0, (0 : ℚ)) :=
  ⟨⟨by decide, by decide, by decide, Or.inl rfl⟩,
    C4_calibration_selfconsistent 5 5 1 YT_LEVELS (by decide) (by decide) (by decide)
      (Or.inl rfl)⟩

/-! ### Metadata parser counterexamples (claims C2, C6) -/

/-- C2 counterexample: on the frame `c2Frame` the parser returns `None`
(the record has a zero name length), yet the decoded frame bytes satisfy
all four conditions the claim lists: the magic matches, every field lies
inside the buffer, the stored CRC-32 matches, and `original_size` is 1. -/
theorem C2_counterexample :
    Decoder.blocks_to_data (frame_to_blocks c2Frame 16 7 1 YT_LEVELS none) 2 = c2Data ∧
    Decoder.try_decode_meta c2Frame 16 7 1 YT_LEVELS 2 none = none ∧
    metaRejectClaim c2Data = false := by
  have hdecode : Decoder.blocks_to_data (frame_to_blocks c2Frame 16 7 1 YT_LEVELS none) 2 =
      c2Data := by decide
  have hparse : parseMeta c2Data = none := by decide
  have htry : Decoder.try_decode_meta c2Frame 16 7 1 YT_LEVELS 2 none = none := by
    rw [Decoder.try_decode_meta, if_neg (by decide), hdecode, hparse]
  have htake : c2Data.take 79 = [70, 86, 76, 84, 3, 8, 2, 2, 128, 1, 224, 10, 1, 0, 0, 0, 0, 0, 0, 0, 0, 0, 1, 0, 0, 0, 0, 0, 0, 0, 1, 0, 0, 0, 0, 0, 0, 0, 0, 0, 0, 0, 0, 0, 0, 0, 0, 0, 0, 0, 0, 0, 0, 0, 0, 0, 0, 0, 0, 0, 0, 0, 0, 0, 0, 0, 0, 0, 0, 0, 0, 0, 0, 0, 0, 0, 0, 0, 0] := by decide
  have hcs0x0 : List.foldl crc32_update 4294967295 [70, 86, 76, 84, 3, 8, 2, 2, 128, 1, 224, 10, 1, 0, 0, 0] = 2532114793 := by
    decide
  have hcs0x1 : List.foldl crc32_update 2532114793 [0, 0, 0, 0, 0, 0, 1, 0, 0, 0, 0, 0, 0, 0, 1, 0] = 2814660174 := by
    decide
  have hcs0x2 : List.foldl crc32_update 2814660174 [0, 0, 0, 0, 0, 0, 0, 0, 0, 0, 0, 0, 0, 0, 0, 0] = 2624953579 := by
    decide
  have hcs0x3 : List.foldl crc32_update 2624953579 [0, 0, 0, 0, 0, 0, 0, 0, 0, 0, 0, 0, 0, 0, 0, 0] = 2423024320 := by
    decide
  have hcs0x4 : List.foldl crc32_update 2423024320 [0, 0, 0, 0, 0, 0, 0, 0, 0, 0, 0, 0, 0, 0, 0] = 570441677 := by
    decide
  have hcrc : crc32 [70, 86, 76, 84, 3, 8, 2, 2, 128, 1, 224, 10, 1, 0, 0, 0, 0, 0, 0, 0, 0, 0, 1, 0, 0, 0, 0, 0, 0, 0, 1, 0, 0, 0, 0, 0, 0, 0, 0, 0, 0, 0, 0, 0, 0, 0, 0, 0, 0, 0, 0, 0, 0, 0, 0, 0, 0, 0, 0, 0, 0, 0, 0, 0, 0, 0, 0, 0, 0, 0, 0, 0, 0, 0, 0, 0, 0, 0, 0] = 3724525618 := by
    rw [show ([70, 86, 76, 84, 3, 8, 2, 2, 128, 1, 224, 10, 1, 0, 0, 0, 0, 0, 0, 0, 0, 0, 1, 0, 0, 0, 0, 0, 0, 0, 1, 0, 0, 0, 0, 0, 0, 0, 0, 0, 0, 0, 0, 0, 0, 0, 0, 0, 0, 0, 0, 0, 0, 0, 0, 0, 0, 0, 0, 0, 0, 0, 0, 0, 0, 0, 0, 0, 0, 0, 0, 0, 0, 0, 0, 0, 0, 0, 0] : List Nat) = [70, 86, 76, 84, 3, 8, 2, 2, 128, 1, 224, 10, 1, 0, 0, 0] ++ ([0, 0, 0, 0, 0, 0, 1, 0, 0, 0, 0, 0, 0, 0, 1, 0] ++ ([0, 0, 0, 0, 0, 0, 0, 0, 0, 0, 0, 0, 0, 0, 0, 0] ++ ([0, 0, 0, 0, 0, 0, 0, 0, 0, 0, 0, 0, 0, 0, 0, 0] ++ ([0, 0, 0, 0, 0, 0, 0, 0, 0, 0, 0, 0, 0, 0, 0])))) from rfl]
    unfold crc32
    rw [List.foldl_append, hcs0x0, List.foldl_append, hcs0x1, List.foldl_append, hcs0x2, List.foldl_append, hcs0x3, hcs0x4]
    decide
  have hclaim : metaRejectClaim c2Data = false := by
    unfold metaRejectClaim
    simp only [Bool.or_eq_false_iff, decide_eq_false_iff_not, not_not, not_lt, ne_eq]
    rw [show c2Data.getD 4 0 = 3 from by decide]
    simp only [ge_iff_le, le_refl, if_true]
    rw [show c2Data.getD 14 0 = 0 from by decide]
    norm_num
    refine ⟨⟨⟨by decide, by decide⟩, ?_⟩, by decide, by decide⟩
    rw [htake, hcrc]
    decide
  exact ⟨hdecode, htry, hclaim⟩

/-- C10 (implicit): `xor_crypt` is length-preserving and, for a non-empty key,
an involution; decryption is re-encryption with the same key. -/
theorem C10_xor_crypt_involution (data key : List Nat) (hk : key ≠ []) :
    (xor_crypt data key).length = data.length ∧
    xor_crypt (xor_crypt data key) key = data := by
  have hlen : ∀ d : List Nat, (xor_crypt d key).length = d.length := by
    intro d; simp [xor_crypt]
  have e2 : ∀ (d : List Nat) (j : Nat), j < d.length →
      (xor_crypt d key).getD j 0 = (d.getD j 0) ^^^ (key.getD (j % key.length) 0) := by
    intro d j hj
    rw [List.getD_eq_getElem _ _ (by rw [hlen]; exact hj)]
    simp [xor_crypt]
  refine ⟨hlen data, ?_⟩
  apply List.ext_getElem (by rw [hlen, hlen])
  intro i h1 h2
  rw [← List.getD_eq_getElem _ 0 h1, ← List.getD_eq_getElem _ 0 h2]
  rw [e2 _ i (by rw [hlen]; exact h2), e2 data i h2]
  exact Nat.xor_cancel_right _ _

/-- Witness for C10 at concrete inputs. -/
theorem C10_witness :
    ([(3 : Nat)] ≠ []) ∧
    ((xor_crypt [1, 2] [3]).length = 2 ∧ xor_crypt (xor_crypt [1, 2] [3]) [3] = [1, 2]) :=
  ⟨by decide, C10_xor_crypt_involution [1, 2] [3] (by decide)⟩

/-- C8: `compress_data` keeps the compressed output exactly when it is strictly
smaller than the input (setting the flag accordingly), and `decompress_data`
applied to the returned pair recovers the input.  The external `zlib`
compressor pair is abstract, assumed to satisfy its documented round-trip
contract. -/
theorem C8_compress_roundtrip (zcompress zdecompress : List Nat → List Nat)
    (hinv : ∀ x, zdecompress (zcompress x) = x) (d : List Nat) :
    ((compress_data zcompress d).2 = true ↔ (zcompress d).length < d.length) ∧
    ((compress_data zcompress d).2 = true → (compress_data zcompress d).1 = zcompress d) ∧
    ((compress_data zcompress d).2 = false → (compress_data zcompress d).1 = d) ∧
    decompress_data zdecompress (compress_data zcompress d).1 (compress_data zcompress d).2 = d := by
  by_cases h : (zcompress d).length < d.length <;>
    simp [compress_data, decompress_data, h, hinv]

/-- Witness for C8 with the identity compressor (which satisfies the round-trip
contract) at a concrete input. -/
theorem C8_witness :
    (∀ x : List Nat, id (id x) = x) ∧
    (((compress_data id [1, 2]).2 = true ↔ (id [1, 2] : List Nat).length < 2) ∧
      ((compress_data id [1, 2]).2 = true → (compress_data id [1, 2]).1 = id [1, 2]) ∧
      ((compress_data id [1, 2]).2 = false → (compress_data id [1, 2]).1 = [1, 2]) ∧
      decompress_data id (compress_data id [1, 2]).1 (compress_data id [1, 2]).2 = [1, 2]) :=
  ⟨fun _ => rfl, C8_compress_roundtrip id id (fun _ => rfl) [1, 2]⟩

/-- C5: for both palettes and every byte `v`, `build_lut(levels)[v]` is an index
minimising the distance to `v`, and the lowest such index. -/
theorem C5_build_lut_nearest (levels : List Nat)
    (hl : levels = YT_LEVELS ∨ levels = LOCAL_LEVELS) :
    ∀ v < 256, ∀ i < levels.length,
      absDiff v (levels.getD ((build_lut levels).getD v 0) 0) ≤ absDiff v (levels.getD i 0) ∧
      (absDiff v (levels.getD i 0) =
          absDiff v (levels.getD ((build_lut levels).getD v 0) 0) →
        (build_lut levels).getD v 0 ≤ i) := by
  rcases hl with h | h <;> subst h <;> decide

/-- Witness for C5 at the 4-entry palette, byte 100, index 1. -/
theorem C5_witness :
    (YT_LEVELS = YT_LEVELS ∨ YT_LEVELS = LOCAL_LEVELS) ∧
    (absDiff 100 (YT_LEVELS.getD ((build_lut YT_LEVELS).getD 100 0) 0) ≤
        absDiff 100 (YT_LEVELS.getD 1 0) ∧
      (absDiff 100 (YT_LEVELS.getD 1 0) =
          absDiff 100 (YT_LEVELS.getD ((build_lut YT_LEVELS).getD 100 0) 0) →
        (build_lut YT_LEVELS).getD 100 0 ≤ 1)) :=
  ⟨Or.inl rfl, C5_build_lut_nearest YT_LEVELS (Or.inl rfl) 100 (by decide) 1 (by decide)⟩

/-- C9 (implicit): `Encoder._build_meta` always returns exactly
`bytes_per_frame` bytes; when the assembled record is longer than
`bytes_per_frame` the result is the truncated prefix of the record, and as
soon as `bytes_per_frame` does not go past the base record the four trailing
CRC bytes are dropped entirely. -/
theorem C9_build_meta_truncation (bytes_per_frame block_size bpc width height fps repeatN : Nat)
    (filename : List Nat) (original_size payload_size : Nat) (file_hash : List Nat)
    (is_compressed is_encrypted : Bool) (salt : List Nat) :
    (Encoder.build_meta bytes_per_frame block_size bpc width height fps repeatN filename
        original_size payload_size file_hash is_compressed is_encrypted salt).length =
      bytes_per_frame ∧
    (bytes_per_frame < (Encoder.build_meta_core block_size bpc width height fps repeatN filename
        original_size payload_size file_hash is_compressed is_encrypted salt).length →
      Encoder.build_meta bytes_per_frame block_size bpc width height fps repeatN filename
          original_size payload_size file_hash is_compressed is_encrypted salt =
        (Encoder.build_meta_core block_size bpc width height fps repeatN filename
          original_size payload_size file_hash is_compressed is_encrypted salt).take
          bytes_per_frame) ∧
    (bytes_per_frame ≤ (Encoder.build_meta_base block_size bpc width height fps repeatN filename
        original_size payload_size file_hash is_compressed is_encrypted salt).length →
      Encoder.build_meta bytes_per_frame block_size bpc width height fps repeatN filename
          original_size payload_size file_hash is_compressed is_encrypted salt =
        (Encoder.build_meta_base block_size bpc width height fps repeatN filename
          original_size payload_size file_hash is_compressed is_encrypted salt).take
          bytes_per_frame) := by
  set base := Encoder.build_meta_base block_size bpc width height fps repeatN filename
    original_size payload_size file_hash is_compressed is_encrypted salt with hbase
  set core := Encoder.build_meta_core block_size bpc width height fps repeatN filename
    original_size payload_size file_hash is_compressed is_encrypted salt with hcore
  have hcb : core = base ++ packBE 4 (crc32 base) := rfl
  refine ⟨?_, ?_, ?_⟩
  · by_cases h : core.length < bytes_per_frame <;>
      simp [Encoder.build_meta, ← hcore, h, List.length_take] <;> omega
  · intro h
    have hnot : ¬ core.length < bytes_per_frame := by omega
    simp [Encoder.build_meta, ← hcore, hnot]
  · intro h
    have hlen : core.length = base.length + 4 := by
      rw [hcb]; simp [packBE]
    have hnot : ¬ core.length < bytes_per_frame := by omega
    simp only [Encoder.build_meta, ← hcore, hnot, if_false]
    rw [hcb, List.take_append_of_le_length h]

/-- Witness for C9: a record whose 87-byte body exceeds a 20-byte frame is cut
to the 20-byte prefix of the base record. -/
theorem C9_witness :
    ((Encoder.build_meta 20 8 2 640 480 10 1 [97, 98, 99, 100] 12 12
        (List.replicate 32 0) false false (List.replicate 16 0)).length = 20 ∧
      (20 < (Encoder.build_meta_core 8 2 640 480 10 1 [97, 98, 99, 100] 12 12
          (List.replicate 32 0) false false (List.replicate 16 0)).length →
        Encoder.build_meta 20 8 2 640 480 10 1 [97, 98, 99, 100] 12 12
            (List.replicate 32 0) false false (List.replicate 16 0) =
          (Encoder.build_meta_core 8 2 640 480 10 1 [97, 98, 99, 100] 12 12
            (List.replicate 32 0) false false (List.replicate 16 0)).take 20) ∧
      (20 ≤ (Encoder.build_meta_base 8 2 640 480 10 1 [97, 98, 99, 100] 12 12
          (List.replicate 32 0) false false (List.replicate 16 0)).length →
        Encoder.build_meta 20 8 2 640 480 10 1 [97, 98, 99, 100] 12 12
            (List.replicate 32 0) false false (List.replicate 16 0) =
          (Encoder.build_meta_base 8 2 640 480 10 1 [97, 98, 99, 100] 12 12
            (List.replicate 32 0) false false (List.replicate 16 0)).take 20)) :=
  C9_build_meta_truncation 20 8 2 640 480 10 1 [97, 98, 99, 100] 12 12
    (List.replicate 32 0) false false (List.replicate 16 0)

lemma getOpt_of_lt {l : List Nat} {i : Nat} (h : i < l.length) :
    l.get? i = some (l.getD i 0) := by
  rw [List.getD_eq_getElem l 0 h, List.get?_eq_getElem?, List.getElem?_eq_getElem h]

lemma readBE_of_le {data : List Nat} {p n : Nat} (h : p + n ≤ data.length) :
    readBE data p n = some (beVal ((data.drop p).take n)) := by
  unfold readBE
  rw [if_pos h]

set_option maxHeartbeats 1000000 in
theorem parseMeta_some_of_false_v3 (data : List Nat) (h : metaRejectSpec data = false)
    (hv : data.getD 4 0 ≥ 3) : ∃ m, parseMeta data = some m := by
  simp only [metaRejectSpec, Bool.or_eq_false_iff, decide_eq_false_iff_not, not_not, not_lt,
    ne_eq, Bool.not_eq_false'] at h
  simp only [if_pos hv] at h
  obtain ⟨⟨⟨⟨⟨⟨hm, hL⟩, hn0⟩, ⟨⟨hp1, hp2⟩, hp3⟩, hp34⟩, hutf⟩, hcrc⟩, ho0, ho2⟩ := h
  unfold parseMeta
  rw [getOpt_of_lt (show 4 < data.length by omega),
    getOpt_of_lt (show 5 < data.length by omega),
    getOpt_of_lt (show 6 < data.length by omega),
    readBE_of_le (show 7 + 2 ≤ data.length by omega),
    readBE_of_le (show 9 + 2 ≤ data.length by omega),
    getOpt_of_lt (show 11 < data.length by omega),
    getOpt_of_lt (show 12 < data.length by omega),
    getOpt_of_lt (show 13 < data.length by omega)]
  rw [if_neg (not_not_intro hm)]
  simp only [Option.bind_eq_bind, Option.some_bind, Option.pure_def, if_pos hv]
  rw [getOpt_of_lt (show 14 < data.length by omega)]
  simp only [Option.some_bind]
  rw [if_neg (show ¬(data.getD 14 0 = 0 ∨ 14 + 1 + data.getD 14 0 > data.length) from by
    push_neg
    exact ⟨hn0, by omega⟩)]
  rw [if_neg (not_not_intro hutf)]
  rw [readBE_of_le (show 14 + 1 + data.getD 14 0 + 8 ≤ data.length from by omega),
    readBE_of_le (show 14 + 1 + data.getD 14 0 + 8 + 8 ≤ data.length from by omega)]
  simp only [Option.some_bind]
  rw [if_neg (show ¬(14 + 1 + data.getD 14 0 + 16 + 32 > data.length) from by omega)]
  rw [if_neg (show ¬(14 + 1 + data.getD 14 0 + 16 + 32 + 16 > data.length) from by omega)]
  rw [readBE_of_le (show 14 + 1 + data.getD 14 0 + 16 + 48 + 4 ≤ data.length from by omega)]
  simp only [Option.some_bind]
  rw [if_neg (not_not_intro hcrc)]
  rw [if_neg (show ¬(beVal (List.take 8 (List.drop (14 + 1 + data.getD 14 0) data)) = 0 ∨
      beVal (List.take 8 (List.drop (14 + 1 + data.getD 14 0) data)) > 2147483648) from by
    push_neg
    exact ⟨ho0, by omega⟩)]
  exact ⟨_, rfl⟩

set_option maxHeartbeats 1000000 in
theorem parseMeta_some_of_false_v2 (data : List Nat) (h : metaRejectSpec data = false)
    (hv : ¬ data.getD 4 0 ≥ 3) : ∃ m, parseMeta data = some m := by
  simp only [metaRejectSpec, Bool.or_eq_false_iff, decide_eq_false_iff_not, not_not, not_lt,
    ne_eq, Bool.not_eq_false'] at h
  simp only [if_neg hv] at h
  obtain ⟨⟨⟨⟨⟨⟨hm, hL⟩, hn0⟩, ⟨⟨hp1, hp2⟩, hp3⟩, hp34⟩, hutf⟩, hcrc⟩, ho0, ho2⟩ := h
  unfold parseMeta
  rw [getOpt_of_lt (show 4 < data.length by omega),
    getOpt_of_lt (show 5 < data.length by omega),
    getOpt_of_lt (show 6 < data.length by omega),
    readBE_of_le (show 7 + 2 ≤ data.length by omega),
    readBE_of_le (show 9 + 2 ≤ data.length by omega),
    getOpt_of_lt (show 11 < data.length by omega)]
  rw [if_neg (not_not_intro hm)]
  simp only [Option.bind_eq_bind, Option.some_bind, Option.pure_def, if_neg hv]
  rw [getOpt_of_lt (show 12 < data.length by omega)]
  simp only [Option.some_bind]
  rw [if_neg (show ¬(data.getD 12 0 = 0 ∨ 12 + 1 + data.getD 12 0 > data.length) from by
    push_neg
    exact ⟨hn0, by omega⟩)]
  rw [if_neg (not_not_intro hutf)]
  rw [readBE_of_le (show 12 + 1 + data.getD 12 0 + 8 ≤ data.length from by omega)]
  simp only [Option.some_bind]
  rw [if_neg (show ¬(12 + 1 + data.getD 12 0 + 8 + 32 > data.length) from by omega)]
  rw [readBE_of_le (show 12 + 1 + data.getD 12 0 + 8 + 32 + 4 ≤ data.length from by omega)]
  simp only [Option.some_bind]
  rw [if_neg (not_not_intro hcrc)]
  rw [if_neg (show ¬(beVal (List.take 8 (List.drop (12 + 1 + data.getD 12 0) data)) = 0 ∨
      beVal (List.take 8 (List.drop (12 + 1 + data.getD 12 0) data)) > 2147483648) from by
    push_neg
    exact ⟨ho0, by omega⟩)]
  exact ⟨_, rfl⟩

lemma getOpt_some_facts {l : List Nat} {i v : Nat} (h : l.get? i = some v) :
    i < l.length ∧ v = l.getD i 0 := by
  have hlt : i < l.length := by
    by_contra hge
    rw [List.get?_eq_none.2 (by omega)] at h
    exact Option.noConfusion h
  rw [getOpt_of_lt hlt] at h
  exact ⟨hlt, (Option.some.inj h).symm⟩

lemma readBE_some_facts {data : List Nat} {p n v : Nat} (h : readBE data p n = some v) :
    p + n ≤ data.length ∧ v = beVal ((data.drop p).take n) := by
  unfold readBE at h
  split at h
  · exact ⟨‹_›, (Option.some.inj h).symm⟩
  · exact absurd h (by simp)

lemma mbind_some {a : Nat} {f : Nat → Option MetaRec} : (some a >>= f) = f a := rfl

lemma mbind_none {f : Nat → Option MetaRec} : ((none : Option Nat) >>= f) = none := rfl

set_option maxHeartbeats 1000000 in
theorem parseMeta_reject_false_of_some (data : List Nat) (m : MetaRec) (hp : parseMeta data = some m) :
    metaRejectSpec data = false := by
  unfold parseMeta at hp
  by_cases hnm : data.take 4 = MAGIC
  swap
  · rw [if_pos hnm] at hp
    exact Option.noConfusion hp
  rw [if_neg (not_not_intro hnm)] at hp
  rcases h4 : data.get? 4 with _ | ver
  · rw [h4, mbind_none] at hp
    exact Option.noConfusion hp
  obtain ⟨hlt4, rfl⟩ := getOpt_some_facts h4
  rw [h4, mbind_some] at hp
  beta_reduce at hp
  rcases h5 : data.get? 5 with _ | mbs
  · rw [h5, mbind_none] at hp
    exact Option.noConfusion hp
  obtain ⟨hlt5, rfl⟩ := getOpt_some_facts h5
  rw [h5, mbind_some] at hp
  beta_reduce at hp
  rcases h6 : data.get? 6 with _ | mbpc
  · rw [h6, mbind_none] at hp
    exact Option.noConfusion hp
  obtain ⟨hlt6, rfl⟩ := getOpt_some_facts h6
  rw [h6, mbind_some] at hp
  beta_reduce at hp
  rcases h7 : readBE data 7 2 with _ | mw
  · rw [h7, mbind_none] at hp
    exact Option.noConfusion hp
  obtain ⟨hb7, rfl⟩ := readBE_some_facts h7
  rw [h7, mbind_some] at hp
  beta_reduce at hp
  rcases h9 : readBE data 9 2 with _ | mh
  · rw [h9, mbind_none] at hp
    exact Option.noConfusion hp
  obtain ⟨hb9, rfl⟩ := readBE_some_facts h9
  rw [h9, mbind_some] at hp
  beta_reduce at hp
  rcases h11 : data.get? 11 with _ | mfps
  · rw [h11, mbind_none] at hp
    exact Option.noConfusion hp
  obtain ⟨hlt11, rfl⟩ := getOpt_some_facts h11
  rw [h11, mbind_some] at hp
  beta_reduce at hp
  by_cases hv : data.getD 4 0 ≥ 3
  · rw [if_pos hv] at hp
    rcases h12 : data.get? 12 with _ | rep
    · rw [h12, mbind_none] at hp
      exact Option.noConfusion hp
    obtain ⟨hlt12, rfl⟩ := getOpt_some_facts h12
    rw [h12, mbind_some] at hp
    beta_reduce at hp
    rcases h13 : data.get? 13 with _ | flags
    · rw [h13, mbind_none] at hp
      exact Option.noConfusion hp
    obtain ⟨hlt13, rfl⟩ := getOpt_some_facts h13
    rw [h13, mbind_some] at hp
    beta_reduce at hp
    simp only [Option.bind_eq_bind, Option.some_bind, Option.pure_def, if_pos hv] at hp
    rcases h14 : data.get? 14 with _ | nl
    · rw [h14, Option.none_bind] at hp
      exact Option.noConfusion hp
    obtain ⟨hlt14, rfl⟩ := getOpt_some_facts h14
    rw [h14] at hp
    simp only [Option.some_bind] at hp
    by_cases hn : data.getD 14 0 = 0 ∨ 14 + 1 + data.getD 14 0 > data.length
    · rw [if_pos hn] at hp
      exact Option.noConfusion hp
    rw [if_neg hn] at hp
    by_cases hutf : utf8Valid (List.take (data.getD 14 0) (List.drop (14 + 1) data)) = true
    swap
    · rw [if_pos hutf] at hp
      exact Option.noConfusion hp
    rw [if_neg (not_not_intro hutf)] at hp
    rcases hr1 : readBE data (14 + 1 + data.getD 14 0) 8 with _ | osz
    · rw [hr1, Option.none_bind] at hp
      exact Option.noConfusion hp
    obtain ⟨hbp1, rfl⟩ := readBE_some_facts hr1
    rw [hr1] at hp
    simp only [Option.some_bind] at hp
    rcases hr2 : readBE data (14 + 1 + data.getD 14 0 + 8) 8 with _ | psz
    · rw [hr2, Option.none_bind] at hp
      exact Option.noConfusion hp
    obtain ⟨hbp2, rfl⟩ := readBE_some_facts hr2
    rw [hr2] at hp
    simp only [Option.some_bind] at hp
    by_cases hh : 14 + 1 + data.getD 14 0 + 16 + 32 > data.length
    · rw [if_pos hh] at hp
      exact Option.noConfusion hp
    rw [if_neg hh] at hp
    by_cases hs : 14 + 1 + data.getD 14 0 + 16 + 32 + 16 > data.length
    · rw [if_pos hs] at hp
      simp only [Option.bind_eq_bind, Option.none_bind] at hp
      exact Option.noConfusion hp
    rw [if_neg hs] at hp
    rcases hr3 : readBE data (14 + 1 + data.getD 14 0 + 16 + 48) 4 with _ | crc
    · rw [hr3, Option.none_bind] at hp
      exact Option.noConfusion hp
    obtain ⟨hbp3, rfl⟩ := readBE_some_facts hr3
    rw [hr3] at hp
    simp only [Option.some_bind] at hp
    by_cases hcrc : crc32 (List.take (14 + 1 + data.getD 14 0 + 16 + 48) data) =
        beVal (List.take 4 (List.drop (14 + 1 + data.getD 14 0 + 16 + 48) data))
    swap
    · rw [if_pos hcrc] at hp
      exact Option.noConfusion hp
    rw [if_neg (not_not_intro hcrc)] at hp
    by_cases ho : beVal (List.take 8 (List.drop (14 + 1 + data.getD 14 0) data)) = 0 ∨
        beVal (List.take 8 (List.drop (14 + 1 + data.getD 14 0) data)) > 2147483648
    · rw [if_pos ho] at hp
      exact Option.noConfusion hp
    push_neg at hn ho
    simp only [metaRejectSpec, Bool.or_eq_false_iff, decide_eq_false_iff_not, not_not, not_lt,
      ne_eq, Bool.not_eq_false']
    simp only [if_pos hv]
    exact ⟨⟨⟨⟨⟨⟨hnm, by omega⟩, hn.1⟩, ⟨⟨by omega, by omega⟩, by omega⟩, by omega⟩, hutf⟩,
      hcrc⟩, ho.1, by omega⟩
  · rw [if_neg hv] at hp
    simp only [Option.bind_eq_bind, Option.some_bind, Option.pure_def, if_neg hv] at hp
    rcases h12 : data.get? 12 with _ | nl
    · rw [h12, Option.none_bind] at hp
      exact Option.noConfusion hp
    obtain ⟨hlt12, rfl⟩ := getOpt_some_facts h12
    rw [h12] at hp
    simp only [Option.some_bind] at hp
    by_cases hn : data.getD 12 0 = 0 ∨ 12 + 1 + data.getD 12 0 > data.length
    · rw [if_pos hn] at hp
      exact Option.noConfusion hp
    rw [if_neg hn] at hp
    by_cases hutf : utf8Valid (List.take (data.getD 12 0) (List.drop (12 + 1) data)) = true
    swap
    · rw [if_pos hutf] at hp
      exact Option.noConfusion hp
    rw [if_neg (not_not_intro hutf)] at hp
    rcases hr1 : readBE data (12 + 1 + data.getD 12 0) 8 with _ | osz
    · rw [hr1, Option.none_bind] at hp
      exact Option.noConfusion hp
    obtain ⟨hbp1, rfl⟩ := readBE_some_facts hr1
    rw [hr1] at hp
    simp only [Option.some_bind] at hp
    by_cases hh : 12 + 1 + data.getD 12 0 + 8 + 32 > data.length
    · rw [if_pos hh] at hp
      exact Option.noConfusion hp
    rw [if_neg hh] at hp
    rcases hr3 : readBE data (12 + 1 + data.getD 12 0 + 8 + 32) 4 with _ | crc
    · rw [hr3, Option.none_bind] at hp
      exact Option.noConfusion hp
    obtain ⟨hbp3, rfl⟩ := readBE_some_facts hr3
    rw [hr3] at hp
    simp only [Option.some_bind] at hp
    by_cases hcrc : crc32 (List.take (12 + 1 + data.getD 12 0 + 8 + 32) data) =
        beVal (List.take 4 (List.drop (12 + 1 + data.getD 12 0 + 8 + 32) data))
    swap
    · rw [if_pos hcrc] at hp
      exact Option.noConfusion hp
    rw [if_neg (not_not_intro hcrc)] at hp
    by_cases ho : beVal (List.take 8 (List.drop (12 + 1 + data.getD 12 0) data)) = 0 ∨
        beVal (List.take 8 (List.drop (12 + 1 + data.getD 12 0) data)) > 2147483648
    · rw [if_pos ho] at hp
      exact Option.noConfusion hp
    push_neg at hn ho
    simp only [metaRejectSpec, Bool.or_eq_false_iff, decide_eq_false_iff_not, not_not, not_lt,
      ne_eq, Bool.not_eq_false']
    simp only [if_neg hv]
    exact ⟨⟨⟨⟨⟨⟨hnm, by omega⟩, hn.1⟩, ⟨⟨by omega, by omega⟩, by omega⟩, by omega⟩, hutf⟩,
      hcrc⟩, ho.1, by omega⟩


lemma P_lt : (0xEDB88320 : Nat) < 2 ^ 32 := by norm_num

lemma crc32_round_lt {x : Nat} (h : x < 2 ^ 32) : crc32_round x < 2 ^ 32 := by
  unfold crc32_round
  split
  · exact Nat.xor_lt_two_pow (by omega) P_lt
  · omega

lemma crc32_round_inj {x y : Nat} (hx : x < 2 ^ 32) (hy : y < 2 ^ 32)
    (h : crc32_round x = crc32_round y) : x = y := by
  have hodd : ∀ a b : Nat, a % 2 = 1 → ¬ b % 2 = 1 → a < 2 ^ 32 → b < 2 ^ 32 →
      (a / 2) ^^^ 0xEDB88320 ≠ b / 2 := by
    intro a b _ _ _ hblt heq
    have h31 : ((a / 2) ^^^ 0xEDB88320).testBit 31 = true := by
      rw [Nat.testBit_xor, Nat.testBit_lt_two_pow (show a / 2 < 2 ^ 31 by omega)]
      decide
    rw [heq] at h31
    have := Nat.testBit_implies_ge h31
    omega
  unfold crc32_round at h
  by_cases px : x % 2 = 1 <;> by_cases py : y % 2 = 1
  · rw [if_pos px, if_pos py] at h
    have h2 : x / 2 = y / 2 := by
      have := congrArg (· ^^^ 0xEDB88320) h
      simpa [Nat.xor_assoc] using this
    omega
  · rw [if_pos px, if_neg py] at h
    exact absurd h (hodd x y px py hx hy)
  · rw [if_neg px, if_pos py] at h
    exact absurd h.symm (hodd y x py px hy hx)
  · rw [if_neg px, if_neg py] at h
    omega

lemma crc32_update_lt {c b : Nat} (hc : c < 2 ^ 32) (hb : b < 2 ^ 32) :
    crc32_update c b < 2 ^ 32 := by
  unfold crc32_update
  exact crc32_round_lt (crc32_round_lt (crc32_round_lt (crc32_round_lt (crc32_round_lt
    (crc32_round_lt (crc32_round_lt (crc32_round_lt (Nat.xor_lt_two_pow hc hb))))))))

lemma crc32_update_inj {c c2 b b2 : Nat} (hc : c < 2 ^ 32) (hc2 : c2 < 2 ^ 32)
    (hb : b < 2 ^ 32) (hb2 : b2 < 2 ^ 32)
    (h : crc32_update c b = crc32_update c2 b2) : c ^^^ b = c2 ^^^ b2 := by
  unfold crc32_update at h
  have a0 : c ^^^ b < 2 ^ 32 := Nat.xor_lt_two_pow hc hb
  have a1 := crc32_round_lt a0
  have a2 := crc32_round_lt a1
  have a3 := crc32_round_lt a2
  have a4 := crc32_round_lt a3
  have a5 := crc32_round_lt a4
  have a6 := crc32_round_lt a5
  have a7 := crc32_round_lt a6
  have d0 : c2 ^^^ b2 < 2 ^ 32 := Nat.xor_lt_two_pow hc2 hb2
  have d1 := crc32_round_lt d0
  have d2 := crc32_round_lt d1
  have d3 := crc32_round_lt d2
  have d4 := crc32_round_lt d3
  have d5 := crc32_round_lt d4
  have d6 := crc32_round_lt d5
  have d7 := crc32_round_lt d6
  exact crc32_round_inj a0 d0 (crc32_round_inj a1 d1 (crc32_round_inj a2 d2
    (crc32_round_inj a3 d3 (crc32_round_inj a4 d4 (crc32_round_inj a5 d5
      (crc32_round_inj a6 d6 (crc32_round_inj a7 d7 h)))))))

lemma xor_right_cancel {a b c : Nat} (h : a ^^^ c = b ^^^ c) : a = b := by
  have := congrArg (· ^^^ c) h
  simpa [Nat.xor_assoc] using this

lemma xor_left_cancel {a b c : Nat} (h : c ^^^ a = c ^^^ b) : a = b := by
  have := congrArg (c ^^^ ·) h
  simpa [← Nat.xor_assoc] using this

lemma crc32_update_inj_state {c c2 b : Nat} (hc : c < 2 ^ 32) (hc2 : c2 < 2 ^ 32)
    (hb : b < 2 ^ 32) (h : crc32_update c b = crc32_update c2 b) : c = c2 :=
  xor_right_cancel (crc32_update_inj hc hc2 hb hb h)

lemma crc32_update_inj_byte {c b b2 : Nat} (hc : c < 2 ^ 32) (hb : b < 2 ^ 32)
    (hb2 : b2 < 2 ^ 32) (h : crc32_update c b = crc32_update c b2) : b = b2 :=
  xor_left_cancel (crc32_update_inj hc hc hb hb2 h)

lemma foldl_update_lt : ∀ (l : List Nat) (s : Nat), s < 2 ^ 32 → (∀ x ∈ l, x < 256) →
    l.foldl crc32_update s < 2 ^ 32 := by
  intro l
  induction l with
  | nil => intro s hs _; simpa using hs
  | cons a t ih =>
    intro s hs hx
    rw [List.foldl_cons]
    exact ih _ (crc32_update_lt hs (by have := hx a (by simp); omega))
      fun y hy => hx y (by simp [hy])

lemma foldl_update_ne : ∀ (l : List Nat) (s s2 : Nat), s < 2 ^ 32 → s2 < 2 ^ 32 →
    (∀ x ∈ l, x < 256) → s ≠ s2 →
    l.foldl crc32_update s ≠ l.foldl crc32_update s2 := by
  intro l
  induction l with
  | nil => intro s s2 _ _ _ hne; simpa using hne
  | cons a t ih =>
    intro s s2 hs hs2 hx hne
    rw [List.foldl_cons, List.foldl_cons]
    have ha : a < 2 ^ 32 := by have := hx a (by simp); omega
    refine ih _ _ (crc32_update_lt hs ha) (crc32_update_lt hs2 ha)
      (fun y hy => hx y (by simp [hy])) ?_
    intro hcontra
    exact hne (crc32_update_inj_state hs hs2 ha hcontra)

lemma crc32_substitution (pre suf : List Nat) (b b2 : Nat)
    (hpre : ∀ x ∈ pre, x < 256) (hsuf : ∀ x ∈ suf, x < 256)
    (hb : b < 256) (hb2 : b2 < 256) (hne : b ≠ b2) :
    crc32 (pre ++ b :: suf) ≠ crc32 (pre ++ b2 :: suf) := by
  unfold crc32
  intro h
  have hfold := xor_right_cancel h
  rw [List.foldl_append, List.foldl_append, List.foldl_cons, List.foldl_cons] at hfold
  have hs : pre.foldl crc32_update 0xFFFFFFFF < 2 ^ 32 :=
    foldl_update_lt pre _ (by norm_num) hpre
  refine foldl_update_ne suf _ _ (crc32_update_lt hs (by omega))
    (crc32_update_lt hs (by omega)) hsuf ?_ hfold
  intro hcontra
  exact hne (crc32_update_inj_byte hs (by omega) (by omega) hcontra)

lemma crc32_lt (l : List Nat) (h : ∀ x ∈ l, x < 256) : crc32 l < 2 ^ 32 :=
  Nat.xor_lt_two_pow (foldl_update_lt l _ (by norm_num) h) (by norm_num)

lemma beVal_append_singleton (l : List Nat) (b : Nat) :
    beVal (l ++ [b]) = beVal l * 256 + b := by
  unfold beVal
  rw [List.foldl_append]
  rfl

lemma packBE_succ (n v : Nat) : packBE (n + 1) v = packBE n (v / 256) ++ [v % 256] := by
  unfold packBE
  rw [List.range_succ, List.map_append]
  congr 1
  · apply List.map_congr_left
    intro i hi
    rw [List.mem_range] at hi
    rw [Nat.div_div_eq_div_mul, ← pow_succ']
    rw [show n + 1 - 1 - i = n - 1 - i + 1 from by omega]
  · simp

lemma length_packBE (n v : Nat) : (packBE n v).length = n := by
  simp [packBE]

lemma packBE_lt (n v : Nat) : ∀ x ∈ packBE n v, x < 256 := by
  intro x hx
  simp only [packBE, List.mem_map] at hx
  obtain ⟨i, _, rfl⟩ := hx
  exact Nat.mod_lt _ (by norm_num)

lemma beVal_packBE (n v : Nat) : beVal (packBE n v) = v % 256 ^ n := by
  induction n generalizing v with
  | zero => simp [packBE, beVal, Nat.mod_one]
  | succ n ih =>
    rw [packBE_succ, beVal_append_singleton, ih]
    rw [pow_succ, mul_comm (256 ^ n : Nat) 256, Nat.mod_mul]
    have h1 : v / 256 % 256 ^ n = v / 256 % 256 ^ n := rfl
    omega

lemma beVal_inj : ∀ (l1 l2 : List Nat), l1.length = l2.length → (∀ x ∈ l1, x < 256) →
    (∀ x ∈ l2, x < 256) → beVal l1 = beVal l2 → l1 = l2 := by
  intro l1
  induction l1 using List.reverseRecOn with
  | nil =>
    intro l2 hlen _ _ _
    exact (List.eq_nil_of_length_eq_zero hlen.symm).symm
  | append_singleton u1 b1 ih =>
    intro l2 hlen h1 h2 hval
    rcases List.eq_nil_or_concat l2 with rfl | ⟨u2, b2, rfl⟩
    · simp at hlen
    rw [List.concat_eq_append] at *
    rw [beVal_append_singleton, beVal_append_singleton] at hval
    have hb1 : b1 < 256 := h1 b1 (by simp)
    have hb2 : b2 < 256 := h2 b2 (by simp)
    have hbeq : b1 = b2 := by omega
    have huval : beVal u1 = beVal u2 := by omega
    have hulen : u1.length = u2.length := by
      simpa using hlen
    rw [ih u2 hulen (fun x hx => h1 x (by simp [hx])) (fun x hx => h2 x (by simp [hx])) huval,
      hbeq]

lemma getD_append_right2 {u v : List Nat} {i d : Nat} (h : u.length ≤ i) :
    (u ++ v).getD i d = v.getD (i - u.length) d := by
  rw [List.getD_eq_getElem?_getD, List.getD_eq_getElem?_getD, List.getElem?_append_right h]

lemma getD_set_ne {l : List Nat} {k i b d : Nat} (h : k ≠ i) :
    (l.set k b).getD i d = l.getD i d := by
  rw [List.getD_eq_getElem?_getD, List.getD_eq_getElem?_getD, List.getElem?_set_ne h]

lemma getD_set_self {l : List Nat} {i b d : Nat} (h : i < l.length) :
    (l.set i b).getD i d = b := by
  rw [List.getD_eq_getElem?_getD]
  rw [List.getElem?_set_self h]
  rfl

section BuildMetaFacts

variable (block_size bpc width height fps repeatN : Nat)
variable (filename : List Nat) (original_size payload_size : Nat) (file_hash : List Nat)
variable (is_compressed is_encrypted : Bool) (salt : List Nat)

lemma build_meta_base_length (hhashlen : file_hash.length = 32) (hsaltlen : salt.length = 16) :
    (Encoder.build_meta_base block_size bpc width height fps repeatN filename
      original_size payload_size file_hash is_compressed is_encrypted salt).length =
    79 + (filename.take 255).length := by
  simp only [Encoder.build_meta_base, List.length_append, List.length_cons, List.length_nil,
    length_packBE, hhashlen, MAGIC, apply_ite List.length, hsaltlen, List.length_replicate,
    ite_self]
  omega

lemma build_meta_base_bytes (hbs : block_size < 256) (hbpc : bpc < 256) (hfps : fps < 256)
    (hrep : repeatN < 256) (hname : ∀ x ∈ filename, x < 256)
    (hhash : ∀ x ∈ file_hash, x < 256) (hsalt : ∀ x ∈ salt, x < 256) :
    ∀ x ∈ Encoder.build_meta_base block_size bpc width height fps repeatN filename
      original_size payload_size file_hash is_compressed is_encrypted salt, x < 256 := by
  intro x hx
  simp only [Encoder.build_meta_base] at hx
  simp only [List.mem_append] at hx
  rcases hx with ((((((((h | h) | h) | h) | h) | h) | h) | h) | h) | h
  · rw [MAGIC] at h
    simp at h
    rcases h with rfl | rfl | rfl | rfl <;> norm_num
  · rw [VERSION] at h
    simp at h
    rcases h with rfl | rfl | rfl
    · norm_num
    · exact hbs
    · exact hbpc
  · exact packBE_lt 2 width x h
  · exact packBE_lt 2 height x h
  · simp at h
    rcases h with rfl | rfl | rfl | rfl
    · exact hfps
    · exact hrep
    · split <;> split <;> norm_num
    · have := List.length_take 255 filename
      have h255 : min 255 filename.length ≤ 255 := Nat.min_le_left _ _
      omega
  · exact hname x (List.mem_of_mem_take h)
  · exact packBE_lt 8 original_size x h
  · exact packBE_lt 8 payload_size x h
  · exact hhash x h
  · split at h
    · exact hsalt x h
    · rw [List.eq_of_mem_replicate h]
      norm_num

lemma build_meta_base_getD4 :
    (Encoder.build_meta_base block_size bpc width height fps repeatN filename
      original_size payload_size file_hash is_compressed is_encrypted salt).getD 4 0 = 3 := rfl

lemma build_meta_base_getD14 :
    (Encoder.build_meta_base block_size bpc width height fps repeatN filename
      original_size payload_size file_hash is_compressed is_encrypted salt).getD 14 0 =
    (filename.take 255).length := rfl

end BuildMetaFacts

theorem parseMeta_none_iff (data : List Nat) :
    parseMeta data = none ↔ metaRejectSpec data = true := by
  constructor
  · intro h
    by_contra hs
    have hf : metaRejectSpec data = false := by
      cases hbv : metaRejectSpec data
      · rfl
      · exact absurd hbv hs
    have hex : ∃ m, parseMeta data = some m := by
      by_cases hv : data.getD 4 0 ≥ 3
      · exact parseMeta_some_of_false_v3 data hf hv
      · exact parseMeta_some_of_false_v2 data hf hv
    obtain ⟨m, hm⟩ := hex
    rw [h] at hm
    exact Option.noConfusion hm
  · intro h
    cases hp : parseMeta data with
    | none => rfl
    | some m =>
      rw [parseMeta_reject_false_of_some data m hp] at h
      exact Bool.noConfusion h

set_option maxHeartbeats 1000000 in
/-- C6 (amended): a metadata record built by `Encoder.build_meta` from
byte-valued parameters, fitting in one frame, is rejected by the parser after
any single-byte change at an offset other than 4 (the version byte) and 14
(the stored name length) and before the zero padding, including changes
inside the CRC field itself. -/
theorem C6_crc_protection (bytes_per_frame block_size bpc width height fps repeatN : Nat)
    (filename : List Nat) (original_size payload_size : Nat) (file_hash : List Nat)
    (is_compressed is_encrypted : Bool) (salt : List Nat) (k b : Nat)
    (hbs : block_size < 256) (hbpc : bpc < 256) (hfps : fps < 256) (hrep : repeatN < 256)
    (hname : ∀ x ∈ filename, x < 256) (hhash : ∀ x ∈ file_hash, x < 256)
    (hhashlen : file_hash.length = 32)
    (hsalt : ∀ x ∈ salt, x < 256) (hsaltlen : salt.length = 16)
    (hfit : 83 + (filename.take 255).length ≤ bytes_per_frame)
    (hk : k < 83 + (filename.take 255).length) (hk4 : k ≠ 4) (hk14 : k ≠ 14)
    (hb : b < 256)
    (hbne : b ≠ (Encoder.build_meta bytes_per_frame block_size bpc width height fps repeatN
      filename original_size payload_size file_hash is_compressed is_encrypted salt).getD k 0) :
    parseMeta ((Encoder.build_meta bytes_per_frame block_size bpc width height fps repeatN
      filename original_size payload_size file_hash is_compressed is_encrypted salt).set k b) =
      none := by
  set n := (filename.take 255).length with hn
  set B := Encoder.build_meta_base block_size bpc width height fps repeatN filename
    original_size payload_size file_hash is_compressed is_encrypted salt with hBdef
  have hBlen : B.length = 79 + n := by
    rw [hBdef, hn]
    exact build_meta_base_length block_size bpc width height fps repeatN filename
      original_size payload_size file_hash is_compressed is_encrypted salt hhashlen hsaltlen
  have hBbytes : ∀ x ∈ B, x < 256 := by
    rw [hBdef]
    exact build_meta_base_bytes block_size bpc width height fps repeatN filename
      original_size payload_size file_hash is_compressed is_encrypted salt hbs hbpc hfps hrep
      hname hhash hsalt
  set C := crc32 B with hCdef
  have hClt : C < 2 ^ 32 := crc32_lt B hBbytes
  have hcoredef : Encoder.build_meta_core block_size bpc width height fps repeatN filename
      original_size payload_size file_hash is_compressed is_encrypted salt =
      B ++ packBE 4 C := rfl
  have hcorelen : (B ++ packBE 4 C).length = 83 + n := by
    rw [List.length_append, length_packBE, hBlen]
    omega
  have hrec : Encoder.build_meta bytes_per_frame block_size bpc width height fps repeatN
      filename original_size payload_size file_hash is_compressed is_encrypted salt =
      B ++ (packBE 4 C ++ List.replicate (bytes_per_frame - (83 + n)) 0) := by
    simp only [Encoder.build_meta]
    rw [hcoredef, hcorelen]
    by_cases hlt : 83 + n < bytes_per_frame
    · rw [if_pos hlt]
      rw [List.take_all_of_le (by
        rw [List.length_append, hcorelen, List.length_replicate]
        omega)]
      rw [List.append_assoc]
    · rw [if_neg hlt]
      have hbe : bytes_per_frame = 83 + n := by omega
      rw [List.take_all_of_le (by rw [hcorelen]; omega)]
      rw [hbe]
      simp
  rw [hrec] at hbne ⊢
  apply (parseMeta_none_iff _).mpr
  by_cases hkB : k < 79 + n
  · -- mutation inside the base record: the computed CRC changes
    have hkBlen : k < B.length := by omega
    rw [List.set_append_left k b hkBlen]
    have hg4 : (B.set k b ++ (packBE 4 C ++ List.replicate (bytes_per_frame - (83 + n)) 0)).getD
        4 0 = 3 := by
      rw [List.getD_append _ _ _ _ (by rw [List.length_set]; omega)]
      rw [getD_set_ne (Ne.symm hk4).symm]
      rw [hBdef]
      exact build_meta_base_getD4 block_size bpc width height fps repeatN filename
        original_size payload_size file_hash is_compressed is_encrypted salt
    have hg14 : (B.set k b ++ (packBE 4 C ++ List.replicate (bytes_per_frame - (83 + n)) 0)).getD
        14 0 = n := by
      rw [List.getD_append _ _ _ _ (by rw [List.length_set]; omega)]
      rw [getD_set_ne (Ne.symm hk14).symm]
      rw [hBdef, hn]
      exact build_meta_base_getD14 block_size bpc width height fps repeatN filename
        original_size payload_size file_hash is_compressed is_encrypted salt
    have hneq : crc32 (B.set k b) ≠ C := by
      have hdecomp : B.set k b = B.take k ++ b :: B.drop (k + 1) := by
        rw [List.set_eq_take_append_cons_drop, if_pos hkBlen]
      have hBrecomp : B = B.take k ++ B.getD k 0 :: B.drop (k + 1) := by
        conv_lhs => rw [← List.take_append_drop k B]
        congr 1
        rw [List.getD_eq_getElem _ _ hkBlen]
        exact (List.get_drop_eq_drop B k hkBlen).symm
      rw [hCdef]
      conv_rhs => rw [hBrecomp]
      rw [hdecomp]
      have hbnek : b ≠ B.getD k 0 := by
        rw [List.getD_append _ _ _ _ hkBlen] at hbne
        exact hbne
      exact crc32_substitution (B.take k) (B.drop (k + 1)) b (B.getD k 0)
        (fun x hx => hBbytes x (List.mem_of_mem_take hx))
        (fun x hx => hBbytes x (List.mem_of_mem_drop hx))
        hb (hBbytes _ (by
          rw [List.getD_eq_getElem _ _ hkBlen]
          exact List.getElem_mem _)) hbnek
    simp only [metaRejectSpec]
    rw [hg4]
    simp only [ge_iff_le, le_refl, if_true]
    rw [hg14]
    rw [show 14 + 1 + n + 16 + 48 = 79 + n from by omega]
    rw [List.take_left' (show (B.set k b).length = 79 + n from by rw [List.length_set]; exact hBlen)]
    rw [List.drop_left' (show (B.set k b).length = 79 + n from by rw [List.length_set]; exact hBlen)]
    rw [List.take_left' (length_packBE 4 C)]
    rw [beVal_packBE]
    rw [show (256 : Nat) ^ 4 = 2 ^ 32 from by norm_num, Nat.mod_eq_of_lt hClt]
    rw [decide_eq_true hneq]
    simp
  · -- mutation inside the stored CRC field: the stored CRC changes
    have hkge : B.length ≤ k := by omega
    rw [List.set_append_right k b hkge, hBlen]
    have hj : k - (79 + n) < 4 := by omega
    rw [List.set_append_left _ b (by rw [length_packBE]; exact hj)]
    have hg4 : (B ++ ((packBE 4 C).set (k - (79 + n)) b ++
        List.replicate (bytes_per_frame - (83 + n)) 0)).getD 4 0 = 3 := by
      rw [List.getD_append _ _ _ _ (by omega)]
      rw [hBdef]
      exact build_meta_base_getD4 block_size bpc width height fps repeatN filename
        original_size payload_size file_hash is_compressed is_encrypted salt
    have hg14 : (B ++ ((packBE 4 C).set (k - (79 + n)) b ++
        List.replicate (bytes_per_frame - (83 + n)) 0)).getD 14 0 = n := by
      rw [List.getD_append _ _ _ _ (by omega)]
      rw [hBdef, hn]
      exact build_meta_base_getD14 block_size bpc width height fps repeatN filename
        original_size payload_size file_hash is_compressed is_encrypted salt
    have hneq2 : crc32 B ≠ beVal ((packBE 4 C).set (k - (79 + n)) b) := by
      intro heq
      have hbv : beVal ((packBE 4 C).set (k - (79 + n)) b) = beVal (packBE 4 C) := by
        rw [← heq, beVal_packBE, show (256 : Nat) ^ 4 = 2 ^ 32 from by norm_num,
          Nat.mod_eq_of_lt hClt, hCdef]
      have hlists : (packBE 4 C).set (k - (79 + n)) b = packBE 4 C :=
        beVal_inj _ _ (by rw [List.length_set])
          (fun x hx => by
            rcases List.mem_or_eq_of_mem_set hx with h | rfl
            · exact packBE_lt 4 C x h
            · exact hb)
          (packBE_lt 4 C) hbv
      apply hbne
      have hbval : b = ((packBE 4 C).set (k - (79 + n)) b).getD (k - (79 + n)) 0 :=
        (getD_set_self (by rw [length_packBE]; exact hj)).symm
      rw [hbval, hlists]
      rw [getD_append_right2 (by rw [hBlen]; omega), hBlen]
      rw [List.getD_append _ _ _ _ (by rw [length_packBE]; exact hj)]
    simp only [metaRejectSpec]
    rw [hg4]
    simp only [ge_iff_le, le_refl, if_true]
    rw [hg14]
    rw [show 14 + 1 + n + 16 + 48 = 79 + n from by omega]
    rw [List.take_left' hBlen]
    rw [List.drop_left' hBlen]
    rw [List.take_left' (show ((packBE 4 C).set (k - (79 + n)) b).length = 4 from by
      rw [List.length_set, length_packBE])]
    rw [decide_eq_true hneq2]
    simp

set_option maxHeartbeats 2000000 in
/-- C6 counterexample: in a record built by `Encoder.build_meta` around the
80-byte crafted filename `c6Filename`, lowering the stored name-length byte
(offset 14, before the padding) from 80 to 1 re-aligns the record fields
inside the filename and the parser accepts the mutated bytes. -/
theorem C6_counterexample :
    (Encoder.build_meta_core 8 2 640 480 10 1 c6Filename 12 12 (List.replicate 32 0)
        false false (List.replicate 16 0)).length ≤ 200 ∧
    (Encoder.build_meta 200 8 2 640 480 10 1 c6Filename 12 12 (List.replicate 32 0)
        false false (List.replicate 16 0)).getD 14 0 = 80 ∧
    (1 : Nat) ≠ 80 ∧
    parseMeta ((Encoder.build_meta 200 8 2 640 480 10 1 c6Filename 12 12 (List.replicate 32 0)
        false false (List.replicate 16 0)).set 14 1) ≠ none := by
  have hb : Encoder.build_meta_base 8 2 640 480 10 1 c6Filename 12 12 (List.replicate 32 0)
      false false (List.replicate 16 0) = [70, 86, 76, 84, 3, 8, 2, 2, 128, 1, 224, 10, 1, 0, 80, 97, 0, 0, 0, 0, 0, 0, 0, 1, 74, 0, 0, 0, 0, 0, 0, 0, 0, 0, 0, 0, 0, 0, 0, 0, 0, 0, 0, 0, 0, 0, 0, 0, 0, 0, 0, 0, 0, 0, 0, 0, 0, 0, 0, 0, 0, 0, 0, 0, 0, 0, 0, 0, 0, 0, 0, 0, 0, 0, 0, 0, 0, 0, 0, 0, 72, 116, 35, 79, 97, 97, 97, 97, 97, 97, 97, 97, 97, 97, 97, 0, 0, 0, 0, 0, 0, 0, 12, 0, 0, 0, 0, 0, 0, 0, 12, 0, 0, 0, 0, 0, 0, 0, 0, 0, 0, 0, 0, 0, 0, 0, 0, 0, 0, 0, 0, 0, 0, 0, 0, 0, 0, 0, 0, 0, 0, 0, 0, 0, 0, 0, 0, 0, 0, 0, 0, 0, 0, 0, 0, 0, 0, 0, 0] := by decide
  have hcs1x0 : List.foldl crc32_update 4294967295 [70, 86, 76, 84, 3, 8, 2, 2, 128, 1, 224, 10, 1, 0, 80, 97] = 383978995 := by
    decide
  have hcs1x1 : List.foldl crc32_update 383978995 [0, 0, 0, 0, 0, 0, 0, 1, 74, 0, 0, 0, 0, 0, 0, 0] = 2656464482 := by
    decide
  have hcs1x2 : List.foldl crc32_update 2656464482 [0, 0, 0, 0, 0, 0, 0, 0, 0, 0, 0, 0, 0, 0, 0, 0] = 552532516 := by
    decide
  have hcs1x3 : List.foldl crc32_update 552532516 [0, 0, 0, 0, 0, 0, 0, 0, 0, 0, 0, 0, 0, 0, 0, 0] = 2609978949 := by
    decide
  have hcs1x4 : List.foldl crc32_update 2609978949 [0, 0, 0, 0, 0, 0, 0, 0, 0, 0, 0, 0, 0, 0, 0, 0] = 1985782336 := by
    decide
  have hcs1x5 : List.foldl crc32_update 1985782336 [72, 116, 35, 79, 97, 97, 97, 97, 97, 97, 97, 97, 97, 97, 97, 0] = 442704535 := by
    decide
  have hcs1x6 : List.foldl crc32_update 442704535 [0, 0, 0, 0, 0, 0, 12, 0, 0, 0, 0, 0, 0, 0, 12, 0] = 2936889756 := by
    decide
  have hcs1x7 : List.foldl crc32_update 2936889756 [0, 0, 0, 0, 0, 0, 0, 0, 0, 0, 0, 0, 0, 0, 0, 0] = 1705202981 := by
    decide
  have hcs1x8 : List.foldl crc32_update 1705202981 [0, 0, 0, 0, 0, 0, 0, 0, 0, 0, 0, 0, 0, 0, 0, 0] = 4057081726 := by
    decide
  have hcs1x9 : List.foldl crc32_update 4057081726 [0, 0, 0, 0, 0, 0, 0, 0, 0, 0, 0, 0, 0, 0, 0] = 1427248535 := by
    decide
  have hcrc : crc32 [70, 86, 76, 84, 3, 8, 2, 2, 128, 1, 224, 10, 1, 0, 80, 97, 0, 0, 0, 0, 0, 0, 0, 1, 74, 0, 0, 0, 0, 0, 0, 0, 0, 0, 0, 0, 0, 0, 0, 0, 0, 0, 0, 0, 0, 0, 0, 0, 0, 0, 0, 0, 0, 0, 0, 0, 0, 0, 0, 0, 0, 0, 0, 0, 0, 0, 0, 0, 0, 0, 0, 0, 0, 0, 0, 0, 0, 0, 0, 0, 72, 116, 35, 79, 97, 97, 97, 97, 97, 97, 97, 97, 97, 97, 97, 0, 0, 0, 0, 0, 0, 0, 12, 0, 0, 0, 0, 0, 0, 0, 12, 0, 0, 0, 0, 0, 0, 0, 0, 0, 0, 0, 0, 0, 0, 0, 0, 0, 0, 0, 0, 0, 0, 0, 0, 0, 0, 0, 0, 0, 0, 0, 0, 0, 0, 0, 0, 0, 0, 0, 0, 0, 0, 0, 0, 0, 0, 0, 0] = 2867718760 := by
    rw [show ([70, 86, 76, 84, 3, 8, 2, 2, 128, 1, 224, 10, 1, 0, 80, 97, 0, 0, 0, 0, 0, 0, 0, 1, 74, 0, 0, 0, 0, 0, 0, 0, 0, 0, 0, 0, 0, 0, 0, 0, 0, 0, 0, 0, 0, 0, 0, 0, 0, 0, 0, 0, 0, 0, 0, 0, 0, 0, 0, 0, 0, 0, 0, 0, 0, 0, 0, 0, 0, 0, 0, 0, 0, 0, 0, 0, 0, 0, 0, 0, 72, 116, 35, 79, 97, 97, 97, 97, 97, 97, 97, 97, 97, 97, 97, 0, 0, 0, 0, 0, 0, 0, 12, 0, 0, 0, 0, 0, 0, 0, 12, 0, 0, 0, 0, 0, 0, 0, 0, 0, 0, 0, 0, 0, 0, 0, 0, 0, 0, 0, 0, 0, 0, 0, 0, 0, 0, 0, 0, 0, 0, 0, 0, 0, 0, 0, 0, 0, 0, 0, 0, 0, 0, 0, 0, 0, 0, 0, 0] : List Nat) = [70, 86, 76, 84, 3, 8, 2, 2, 128, 1, 224, 10, 1, 0, 80, 97] ++ ([0, 0, 0, 0, 0, 0, 0, 1, 74, 0, 0, 0, 0, 0, 0, 0] ++ ([0, 0, 0, 0, 0, 0, 0, 0, 0, 0, 0, 0, 0, 0, 0, 0] ++ ([0, 0, 0, 0, 0, 0, 0, 0, 0, 0, 0, 0, 0, 0, 0, 0] ++ ([0, 0, 0, 0, 0, 0, 0, 0, 0, 0, 0, 0, 0, 0, 0, 0] ++ ([72, 116, 35, 79, 97, 97, 97, 97, 97, 97, 97, 97, 97, 97, 97, 0] ++ ([0, 0, 0, 0, 0, 0, 12, 0, 0, 0, 0, 0, 0, 0, 12, 0] ++ ([0, 0, 0, 0, 0, 0, 0, 0, 0, 0, 0, 0, 0, 0, 0, 0] ++ ([0, 0, 0, 0, 0, 0, 0, 0, 0, 0, 0, 0, 0, 0, 0, 0] ++ ([0, 0, 0, 0, 0, 0, 0, 0, 0, 0, 0, 0, 0, 0, 0]))))))))) from rfl]
    unfold crc32
    rw [List.foldl_append, hcs1x0, List.foldl_append, hcs1x1, List.foldl_append, hcs1x2, List.foldl_append, hcs1x3, List.foldl_append, hcs1x4, List.foldl_append, hcs1x5, List.foldl_append, hcs1x6, List.foldl_append, hcs1x7, List.foldl_append, hcs1x8, hcs1x9]
    decide
  have hcore : Encoder.build_meta_core 8 2 640 480 10 1 c6Filename 12 12 (List.replicate 32 0)
      false false (List.replicate 16 0) = [70, 86, 76, 84, 3, 8, 2, 2, 128, 1, 224, 10, 1, 0, 80, 97, 0, 0, 0, 0, 0, 0, 0, 1, 74, 0, 0, 0, 0, 0, 0, 0, 0, 0, 0, 0, 0, 0, 0, 0, 0, 0, 0, 0, 0, 0, 0, 0, 0, 0, 0, 0, 0, 0, 0, 0, 0, 0, 0, 0, 0, 0, 0, 0, 0, 0, 0, 0, 0, 0, 0, 0, 0, 0, 0, 0, 0, 0, 0, 0, 72, 116, 35, 79, 97, 97, 97, 97, 97, 97, 97, 97, 97, 97, 97, 0, 0, 0, 0, 0, 0, 0, 12, 0, 0, 0, 0, 0, 0, 0, 12, 0, 0, 0, 0, 0, 0, 0, 0, 0, 0, 0, 0, 0, 0, 0, 0, 0, 0, 0, 0, 0, 0, 0, 0, 0, 0, 0, 0, 0, 0, 0, 0, 0, 0, 0, 0, 0, 0, 0, 0, 0, 0, 0, 0, 0, 0, 0, 0, 170, 237, 234, 104] := by
    show Encoder.build_meta_base 8 2 640 480 10 1 c6Filename 12 12 (List.replicate 32 0)
        false false (List.replicate 16 0) ++
      packBE 4 (crc32 (Encoder.build_meta_base 8 2 640 480 10 1 c6Filename 12 12
        (List.replicate 32 0) false false (List.replicate 16 0))) = [70, 86, 76, 84, 3, 8, 2, 2, 128, 1, 224, 10, 1, 0, 80, 97, 0, 0, 0, 0, 0, 0, 0, 1, 74, 0, 0, 0, 0, 0, 0, 0, 0, 0, 0, 0, 0, 0, 0, 0, 0, 0, 0, 0, 0, 0, 0, 0, 0, 0, 0, 0, 0, 0, 0, 0, 0, 0, 0, 0, 0, 0, 0, 0, 0, 0, 0, 0, 0, 0, 0, 0, 0, 0, 0, 0, 0, 0, 0, 0, 72, 116, 35, 79, 97, 97, 97, 97, 97, 97, 97, 97, 97, 97, 97, 0, 0, 0, 0, 0, 0, 0, 12, 0, 0, 0, 0, 0, 0, 0, 12, 0, 0, 0, 0, 0, 0, 0, 0, 0, 0, 0, 0, 0, 0, 0, 0, 0, 0, 0, 0, 0, 0, 0, 0, 0, 0, 0, 0, 0, 0, 0, 0, 0, 0, 0, 0, 0, 0, 0, 0, 0, 0, 0, 0, 0, 0, 0, 0, 170, 237, 234, 104]
    rw [hb, hcrc]
    decide
  have hrec : Encoder.build_meta 200 8 2 640 480 10 1 c6Filename 12 12 (List.replicate 32 0)
      false false (List.replicate 16 0) = [70, 86, 76, 84, 3, 8, 2, 2, 128, 1, 224, 10, 1, 0, 80, 97, 0, 0, 0, 0, 0, 0, 0, 1, 74, 0, 0, 0, 0, 0, 0, 0, 0, 0, 0, 0, 0, 0, 0, 0, 0, 0, 0, 0, 0, 0, 0, 0, 0, 0, 0, 0, 0, 0, 0, 0, 0, 0, 0, 0, 0, 0, 0, 0, 0, 0, 0, 0, 0, 0, 0, 0, 0, 0, 0, 0, 0, 0, 0, 0, 72, 116, 35, 79, 97, 97, 97, 97, 97, 97, 97, 97, 97, 97, 97, 0, 0, 0, 0, 0, 0, 0, 12, 0, 0, 0, 0, 0, 0, 0, 12, 0, 0, 0, 0, 0, 0, 0, 0, 0, 0, 0, 0, 0, 0, 0, 0, 0, 0, 0, 0, 0, 0, 0, 0, 0, 0, 0, 0, 0, 0, 0, 0, 0, 0, 0, 0, 0, 0, 0, 0, 0, 0, 0, 0, 0, 0, 0, 0, 170, 237, 234, 104, 0, 0, 0, 0, 0, 0, 0, 0, 0, 0, 0, 0, 0, 0, 0, 0, 0, 0, 0, 0, 0, 0, 0, 0, 0, 0, 0, 0, 0, 0, 0, 0, 0, 0, 0, 0, 0] := by
    simp only [Encoder.build_meta]
    rw [hcore]
    decide
  refine ⟨by rw [hcore]; decide, by rw [hrec]; decide, by decide, ?_⟩
  rw [hrec]
  rw [show ([70, 86, 76, 84, 3, 8, 2, 2, 128, 1, 224, 10, 1, 0, 80, 97, 0, 0, 0, 0, 0, 0, 0, 1, 74, 0, 0, 0, 0, 0, 0, 0, 0, 0, 0, 0, 0, 0, 0, 0, 0, 0, 0, 0, 0, 0, 0, 0, 0, 0, 0, 0, 0, 0, 0, 0, 0, 0, 0, 0, 0, 0, 0, 0, 0, 0, 0, 0, 0, 0, 0, 0, 0, 0, 0, 0, 0, 0, 0, 0, 72, 116, 35, 79, 97, 97, 97, 97, 97, 97, 97, 97, 97, 97, 97, 0, 0, 0, 0, 0, 0, 0, 12, 0, 0, 0, 0, 0, 0, 0, 12, 0, 0, 0, 0, 0, 0, 0, 0, 0, 0, 0, 0, 0, 0, 0, 0, 0, 0, 0, 0, 0, 0, 0, 0, 0, 0, 0, 0, 0, 0, 0, 0, 0, 0, 0, 0, 0, 0, 0, 0, 0, 0, 0, 0, 0, 0, 0, 0, 170, 237, 234, 104, 0, 0, 0, 0, 0, 0, 0, 0, 0, 0, 0, 0, 0, 0, 0, 0, 0, 0, 0, 0, 0, 0, 0, 0, 0, 0, 0, 0, 0, 0, 0, 0, 0, 0, 0, 0, 0] : List Nat).set 14 1 = [70, 86, 76, 84, 3, 8, 2, 2, 128, 1, 224, 10, 1, 0, 1, 97, 0, 0, 0, 0, 0, 0, 0, 1, 74, 0, 0, 0, 0, 0, 0, 0, 0, 0, 0, 0, 0, 0, 0, 0, 0, 0, 0, 0, 0, 0, 0, 0, 0, 0, 0, 0, 0, 0, 0, 0, 0, 0, 0, 0, 0, 0, 0, 0, 0, 0, 0, 0, 0, 0, 0, 0, 0, 0, 0, 0, 0, 0, 0, 0, 72, 116, 35, 79, 97, 97, 97, 97, 97, 97, 97, 97, 97, 97, 97, 0, 0, 0, 0, 0, 0, 0, 12, 0, 0, 0, 0, 0, 0, 0, 12, 0, 0, 0, 0, 0, 0, 0, 0, 0, 0, 0, 0, 0, 0, 0, 0, 0, 0, 0, 0, 0, 0, 0, 0, 0, 0, 0, 0, 0, 0, 0, 0, 0, 0, 0, 0, 0, 0, 0, 0, 0, 0, 0, 0, 0, 0, 0, 0, 170, 237, 234, 104, 0, 0, 0, 0, 0, 0, 0, 0, 0, 0, 0, 0, 0, 0, 0, 0, 0, 0, 0, 0, 0, 0, 0, 0, 0, 0, 0, 0, 0, 0, 0, 0, 0, 0, 0, 0, 0] from by decide]
  have hspec : metaRejectSpec [70, 86, 76, 84, 3, 8, 2, 2, 128, 1, 224, 10, 1, 0, 1, 97, 0, 0, 0, 0, 0, 0, 0, 1, 74, 0, 0, 0, 0, 0, 0, 0, 0, 0, 0, 0, 0, 0, 0, 0, 0, 0, 0, 0, 0, 0, 0, 0, 0, 0, 0, 0, 0, 0, 0, 0, 0, 0, 0, 0, 0, 0, 0, 0, 0, 0, 0, 0, 0, 0, 0, 0, 0, 0, 0, 0, 0, 0, 0, 0, 72, 116, 35, 79, 97, 97, 97, 97, 97, 97, 97, 97, 97, 97, 97, 0, 0, 0, 0, 0, 0, 0, 12, 0, 0, 0, 0, 0, 0, 0, 12, 0, 0, 0, 0, 0, 0, 0, 0, 0, 0, 0, 0, 0, 0, 0, 0, 0, 0, 0, 0, 0, 0, 0, 0, 0, 0, 0, 0, 0, 0, 0, 0, 0, 0, 0, 0, 0, 0, 0, 0, 0, 0, 0, 0, 0, 0, 0, 0, 170, 237, 234, 104, 0, 0, 0, 0, 0, 0, 0, 0, 0, 0, 0, 0, 0, 0, 0, 0, 0, 0, 0, 0, 0, 0, 0, 0, 0, 0, 0, 0, 0, 0, 0, 0, 0, 0, 0, 0, 0] = false := by
    unfold metaRejectSpec
    simp only [Bool.or_eq_false_iff, decide_eq_false_iff_not, not_not, not_lt,
      ne_eq, Bool.not_eq_false']
    rw [show ([70, 86, 76, 84, 3, 8, 2, 2, 128, 1, 224, 10, 1, 0, 1, 97, 0, 0, 0, 0, 0, 0, 0, 1, 74, 0, 0, 0, 0, 0, 0, 0, 0, 0, 0, 0, 0, 0, 0, 0, 0, 0, 0, 0, 0, 0, 0, 0, 0, 0, 0, 0, 0, 0, 0, 0, 0, 0, 0, 0, 0, 0, 0, 0, 0, 0, 0, 0, 0, 0, 0, 0, 0, 0, 0, 0, 0, 0, 0, 0, 72, 116, 35, 79, 97, 97, 97, 97, 97, 97, 97, 97, 97, 97, 97, 0, 0, 0, 0, 0, 0, 0, 12, 0, 0, 0, 0, 0, 0, 0, 12, 0, 0, 0, 0, 0, 0, 0, 0, 0, 0, 0, 0, 0, 0, 0, 0, 0, 0, 0, 0, 0, 0, 0, 0, 0, 0, 0, 0, 0, 0, 0, 0, 0, 0, 0, 0, 0, 0, 0, 0, 0, 0, 0, 0, 0, 0, 0, 0, 170, 237, 234, 104, 0, 0, 0, 0, 0, 0, 0, 0, 0, 0, 0, 0, 0, 0, 0, 0, 0, 0, 0, 0, 0, 0, 0, 0, 0, 0, 0, 0, 0, 0, 0, 0, 0, 0, 0, 0, 0] : List Nat).getD 4 0 = 3 from by decide]
    simp only [ge_iff_le, le_refl, if_true]
    rw [show ([70, 86, 76, 84, 3, 8, 2, 2, 128, 1, 224, 10, 1, 0, 1, 97, 0, 0, 0, 0, 0, 0, 0, 1, 74, 0, 0, 0, 0, 0, 0, 0, 0, 0, 0, 0, 0, 0, 0, 0, 0, 0, 0, 0, 0, 0, 0, 0, 0, 0, 0, 0, 0, 0, 0, 0, 0, 0, 0, 0, 0, 0, 0, 0, 0, 0, 0, 0, 0, 0, 0, 0, 0, 0, 0, 0, 0, 0, 0, 0, 72, 116, 35, 79, 97, 97, 97, 97, 97, 97, 97, 97, 97, 97, 97, 0, 0, 0, 0, 0, 0, 0, 12, 0, 0, 0, 0, 0, 0, 0, 12, 0, 0, 0, 0, 0, 0, 0, 0, 0, 0, 0, 0, 0, 0, 0, 0, 0, 0, 0, 0, 0, 0, 0, 0, 0, 0, 0, 0, 0, 0, 0, 0, 0, 0, 0, 0, 0, 0, 0, 0, 0, 0, 0, 0, 0, 0, 0, 0, 170, 237, 234, 104, 0, 0, 0, 0, 0, 0, 0, 0, 0, 0, 0, 0, 0, 0, 0, 0, 0, 0, 0, 0, 0, 0, 0, 0, 0, 0, 0, 0, 0, 0, 0, 0, 0, 0, 0, 0, 0] : List Nat).getD 14 0 = 1 from by decide]
    norm_num
    refine ⟨⟨⟨by decide, by decide⟩, ?_⟩, by decide, by decide⟩
    have hcs2x0 : List.foldl crc32_update 4294967295 [70, 86, 76, 84, 3, 8, 2, 2, 128, 1, 224, 10, 1, 0, 1, 97] = 3041092070 := by
      decide
    have hcs2x1 : List.foldl crc32_update 3041092070 [0, 0, 0, 0, 0, 0, 0, 1, 74, 0, 0, 0, 0, 0, 0, 0] = 3844797691 := by
      decide
    have hcs2x2 : List.foldl crc32_update 3844797691 [0, 0, 0, 0, 0, 0, 0, 0, 0, 0, 0, 0, 0, 0, 0, 0] = 3070415933 := by
      decide
    have hcs2x3 : List.foldl crc32_update 3070415933 [0, 0, 0, 0, 0, 0, 0, 0, 0, 0, 0, 0, 0, 0, 0, 0] = 2302573725 := by
      decide
    have hcs2x4 : List.foldl crc32_update 2302573725 [0, 0, 0, 0, 0, 0, 0, 0, 0, 0, 0, 0, 0, 0, 0, 0] = 3079396528 := by
      decide
    have hcw2 : crc32 [70, 86, 76, 84, 3, 8, 2, 2, 128, 1, 224, 10, 1, 0, 1, 97, 0, 0, 0, 0, 0, 0, 0, 1, 74, 0, 0, 0, 0, 0, 0, 0, 0, 0, 0, 0, 0, 0, 0, 0, 0, 0, 0, 0, 0, 0, 0, 0, 0, 0, 0, 0, 0, 0, 0, 0, 0, 0, 0, 0, 0, 0, 0, 0, 0, 0, 0, 0, 0, 0, 0, 0, 0, 0, 0, 0, 0, 0, 0, 0] = 1215570767 := by
      rw [show ([70, 86, 76, 84, 3, 8, 2, 2, 128, 1, 224, 10, 1, 0, 1, 97, 0, 0, 0, 0, 0, 0, 0, 1, 74, 0, 0, 0, 0, 0, 0, 0, 0, 0, 0, 0, 0, 0, 0, 0, 0, 0, 0, 0, 0, 0, 0, 0, 0, 0, 0, 0, 0, 0, 0, 0, 0, 0, 0, 0, 0, 0, 0, 0, 0, 0, 0, 0, 0, 0, 0, 0, 0, 0, 0, 0, 0, 0, 0, 0] : List Nat) = [70, 86, 76, 84, 3, 8, 2, 2, 128, 1, 224, 10, 1, 0, 1, 97] ++ ([0, 0, 0, 0, 0, 0, 0, 1, 74, 0, 0, 0, 0, 0, 0, 0] ++ ([0, 0, 0, 0, 0, 0, 0, 0, 0, 0, 0, 0, 0, 0, 0, 0] ++ ([0, 0, 0, 0, 0, 0, 0, 0, 0, 0, 0, 0, 0, 0, 0, 0] ++ ([0, 0, 0, 0, 0, 0, 0, 0, 0, 0, 0, 0, 0, 0, 0, 0])))) from rfl]
      unfold crc32
      rw [List.foldl_append, hcs2x0, List.foldl_append, hcs2x1, List.foldl_append, hcs2x2, List.foldl_append, hcs2x3, hcs2x4]
      decide
    rw [hcw2]
    decide
  obtain ⟨m, hm⟩ := parseMeta_some_of_false_v3 [70, 86, 76, 84, 3, 8, 2, 2, 128, 1, 224, 10, 1, 0, 1, 97, 0, 0, 0, 0, 0, 0, 0, 1, 74, 0, 0, 0, 0, 0, 0, 0, 0, 0, 0, 0, 0, 0, 0, 0, 0, 0, 0, 0, 0, 0, 0, 0, 0, 0, 0, 0, 0, 0, 0, 0, 0, 0, 0, 0, 0, 0, 0, 0, 0, 0, 0, 0, 0, 0, 0, 0, 0, 0, 0, 0, 0, 0, 0, 0, 72, 116, 35, 79, 97, 97, 97, 97, 97, 97, 97, 97, 97, 97, 97, 0, 0, 0, 0, 0, 0, 0, 12, 0, 0, 0, 0, 0, 0, 0, 12, 0, 0, 0, 0, 0, 0, 0, 0, 0, 0, 0, 0, 0, 0, 0, 0, 0, 0, 0, 0, 0, 0, 0, 0, 0, 0, 0, 0, 0, 0, 0, 0, 0, 0, 0, 0, 0, 0, 0, 0, 0, 0, 0, 0, 0, 0, 0, 0, 170, 237, 234, 104, 0, 0, 0, 0, 0, 0, 0, 0, 0, 0, 0, 0, 0, 0, 0, 0, 0, 0, 0, 0, 0, 0, 0, 0, 0, 0, 0, 0, 0, 0, 0, 0, 0, 0, 0, 0, 0] hspec (by decide)
  rw [hm]
  simp

/-- C2 (amended): for frames whose block grid is at least 4x4 in both
directions, `Decoder.try_decode_meta` returns `none` exactly when the decoded
frame bytes fail one of: the first 4 bytes differ from FVLT; the header is
too short; the stored name length is zero; a field (filename, sizes, hash,
salt, CRC) would run past the end of the buffer; the filename bytes are not
valid UTF-8; the stored CRC-32 differs from the CRC-32 of all preceding
record bytes; or the original size is zero or exceeds 2 GiB. -/
theorem C2_parser_contract (frame : List Nat) (width height bs : Nat) (levels : List Nat)
    (bpc : Nat) (adj : Option (List Nat × List Nat × List Nat))
    (hgrid : ¬ (width / bs < 4 ∨ height / bs < 4)) :
    Decoder.try_decode_meta frame width height bs levels bpc adj = none ↔
      metaRejectSpec (Decoder.blocks_to_data (frame_to_blocks frame width height bs levels adj)
        bpc) = true := by
  unfold Decoder.try_decode_meta
  rw [if_neg hgrid]
  exact parseMeta_none_iff _

/-- Witness for C2: the contract instantiated on the 16x7 frame `c2Frame`. -/
theorem C2_witness :
    ¬ ((16 : Nat) / 1 < 4 ∨ (7 : Nat) / 1 < 4) ∧
    (Decoder.try_decode_meta c2Frame 16 7 1 YT_LEVELS 2 none = none ↔
      metaRejectSpec (Decoder.blocks_to_data (frame_to_blocks c2Frame 16 7 1 YT_LEVELS none) 2) =
        true) :=
  ⟨by decide, C2_parser_contract c2Frame 16 7 1 YT_LEVELS 2 none (by decide)⟩

/-- Witness for C6: mutating byte 0 of a concrete record makes parsing fail. -/
theorem C6_witness :
    ((8 : Nat) < 256 ∧ (2 : Nat) < 256 ∧ (10 : Nat) < 256 ∧ (1 : Nat) < 256 ∧
      (∀ x ∈ ([97] : List Nat), x < 256) ∧ (∀ x ∈ List.replicate 32 0, x < 256) ∧
      (List.replicate 32 (0 : Nat)).length = 32 ∧ (∀ x ∈ List.replicate 16 0, x < 256) ∧
      (List.replicate 16 (0 : Nat)).length = 16 ∧
      83 + (([97] : List Nat).take 255).length ≤ 200 ∧
      0 < 83 + (([97] : List Nat).take 255).length ∧ (0 : Nat) ≠ 4 ∧ (0 : Nat) ≠ 14 ∧
      (1 : Nat) < 256 ∧
      (1 : Nat) ≠ (Encoder.build_meta 200 8 2 640 480 10 1 [97] 12 12 (List.replicate 32 0)
        false false (List.replicate 16 0)).getD 0 0) ∧
    parseMeta ((Encoder.build_meta 200 8 2 640 480 10 1 [97] 12 12 (List.replicate 32 0)
      false false (List.replicate 16 0)).set 0 1) = none :=
  ⟨⟨by decide, by decide, by decide, by decide, by decide, by decide, by decide, by decide,
    by decide, by decide, by decide, by decide, by decide, by decide, by decide⟩,
    C6_crc_protection 200 8 2 640 480 10 1 [97] 12 12 (List.replicate 32 0) false false
      (List.replicate 16 0) 0 1 (by decide) (by decide) (by decide) (by decide) (by decide)
      (by decide) (by decide) (by decide) (by decide) (by decide) (by decide) (by decide)
      (by decide) (by decide) (by decide)⟩

end FileVault

